import Mathlib

/-
Verification of the candidate-enumeration core of the `memory_libmap` pass
(passes/memory/memory_libmap.cc).  The definitions below are a shallow
embedding of the mapping engine: the library data model, the per-candidate
`MemConfig` record, the option-merging primitives, and the pruning phases
`determine_style` through `handle_rd_srst`.

Modelling conventions:
- `dict<std::string, Const>` (insertion-ordered) is an association list;
  insertion of a fresh key appends at the end, as yosys `dict` does.
- `RTLIL::Const` option/attribute values are `ConstV` (integer or string).
  Integer attribute constants are taken to be the 32-bit constants the
  frontends produce, so `val == 1` is `ConstV.int 1`.
- Signals (`SigBit`/1-bit `SigSpec`) are `SigVal`: the constants S0/S1 or a
  numbered wire bit.  Multi-bit constants (reset/init values) are bit lists
  over `St` (0/1/x).
- The SAT queries `wr_enable_implies_rd_enable` / `wr_enable_excludes_rd_enable`
  and the sigmap-based `addr_compatible` inspect the surrounding netlist,
  which the spec declares out of scope; they enter the embedding as the
  oracle record `Env`, keyed by (write port index, read port index) exactly
  like the memoized queries in the source.
- Geometry fields (`width`, `wrbe`, `unit_abits`, ..., and the `width` /
  `mixwidth` / `addrce` / `wrbe` / `wrcs` capability lists) are consumed only
  by the unimplemented `handle_dims` stage and are omitted.
- `log_error` aborts the pass; phases that can abort on an empty result
  (`handle_ram_kind`, `handle_ram_style`) are modelled as returning the
  (possibly empty) filtered candidate list, which is what the candidate-set
  claims are about.
-/

set_option maxHeartbeats 1000000

namespace MemLibMap

/-- Constant values stored in option maps and memory attributes
(abstracting `RTLIL::Const`). -/
inductive ConstV
  | int : Int → ConstV
  | str : String → ConstV
deriving DecidableEq

/-- An insertion-ordered option map, `typedef dict<std::string, Const> Options`. -/
abbrev Options := List (String × ConstV)

/-- First-match lookup in an insertion-ordered association list. -/
def alist_find {β : Type} : List (String × β) → String → Option β
  | [], _ => none
  | kv :: rest, k => if kv.1 = k then some kv.2 else alist_find rest k

/-- Lookup in an option map. -/
def opts_find (m : Options) (k : String) : Option ConstV := alist_find m k

/-- Source `opts_applied` (memory_libmap.cc:810): true iff every binding of
`src` is already present and equal in `dst`; no mutation. -/
def opts_applied (dst src : Options) : Bool :=
  src.all (fun kv => decide (opts_find dst kv.1 = some kv.2))

/-- Source `apply_opts` (memory_libmap.cc:821): merge `src` into `dst` key by
key, inserting absent keys at the end and failing on the first key bound to a
different value.  Returns the success flag together with the destination map,
which on failure retains the insertions made before the conflicting key. -/
def apply_opts : Options → Options → Bool × Options
  | dst, [] => (true, dst)
  | dst, kv :: rest =>
    match opts_find dst kv.1 with
    | none => apply_opts (dst ++ [kv]) rest
    | some v2 => if v2 = kv.2 then apply_opts dst rest else (false, dst)

/-- RAM kinds, including the style-determination pseudo-kinds
(memory_libmap.cc:31). -/
inductive RamKind
  | auto | logic | notLogic | distributed | block | huge
deriving DecidableEq, Inhabited

/-- Allowed initializer content for a RAM definition (memory_libmap.cc:40). -/
inductive MemoryInitKind
  | inone | izero | iany
deriving DecidableEq, Inhabited

/-- Port-group kinds (memory_libmap.cc:46). -/
inductive PortKind
  | sr | ar | sw | srsw | arsw
deriving DecidableEq, Inhabited

/-- Clock capability polarity (memory_libmap.cc:54). -/
inductive ClkPolKind
  | anyedge | posedge | negedge
deriving DecidableEq, Inhabited

/-- `rden` capability values (memory_libmap.cc:60). -/
inductive RdEnKind
  | rnone | rany | writeImplies | writeExcludes
deriving DecidableEq, Inhabited

/-- Reset scope of a `rdrstval` capability (memory_libmap.cc:67). -/
inductive ResetKind
  | rinit | rasync | rsync
deriving DecidableEq, Inhabited

/-- Value kind of a `rdrstval` capability (memory_libmap.cc:73). -/
inductive ResetValKind
  | vnone | vzero | vnamed
deriving DecidableEq, Inhabited

/-- `rdsrstmode` capability values (memory_libmap.cc:79). -/
inductive SrstKind
  | srstOverEn | enOverSrst | sany
deriving DecidableEq, Inhabited

/-- Target selector of a `wrtrans` capability (memory_libmap.cc:85). -/
inductive TransTargetKind
  | tself | tother | tnamed
deriving DecidableEq, Inhabited

/-- Transparency kind of a `wrtrans` capability (memory_libmap.cc:91). -/
inductive TransKind
  | tnew | told
deriving DecidableEq, Inhabited

/-- Payload of a `clock` capability; an empty `name` is an unnamed clock
(memory_libmap.cc:100). -/
structure ClockDef where
  kind : ClkPolKind
  name : String
deriving DecidableEq, Inhabited

/-- Payload of a `rdrstval` capability (memory_libmap.cc:105). -/
structure ResetValDef where
  kind : ResetKind
  val_kind : ResetValKind
  name : String
deriving DecidableEq, Inhabited

/-- Payload of a `wrtrans` capability (memory_libmap.cc:111). -/
structure WrTransDef where
  target_kind : TransTargetKind
  target_name : String
  kind : TransKind
deriving DecidableEq, Inhabited

/-- A capability and the option bindings in scope at its declaration
(memory_libmap.cc:117). -/
structure Capability (T : Type) where
  val : T
  opts : Options
  portopts : Options
deriving DecidableEq, Inhabited

/-- A port-group definition with its port-level capability lists
(memory_libmap.cc:126).  The geometry-only lists (`width`, `mixwidth`,
`addrce`, `wrbe`, `wrcs`) are not read by any embedded phase and are
omitted. -/
structure PortGroupDef where
  kind : PortKind
  names : List String
  clock : List (Capability ClockDef)
  rden : List (Capability RdEnKind)
  rdrstval : List (Capability ResetValDef)
  rdsrstmode : List (Capability SrstKind)
  wrprio : List (Capability String)
  wrtrans : List (Capability WrTransDef)
deriving DecidableEq, Inhabited

/-- A RAM definition (memory_libmap.cc:147); `dims` payload is (abits, dbits). -/
structure RamDef where
  id : String
  kind : RamKind
  ports : List (Capability PortGroupDef)
  dims : List (Capability (Nat × Nat))
  init : List (Capability MemoryInitKind)
  style : List (Capability String)
deriving DecidableEq, Inhabited

/-- The library seen by the mapping engine: its ordered RAM definitions. -/
abbrev Library := List RamDef

/-- A logic state of one bit of a multi-bit constant. -/
inductive St
  | s0 | s1 | sx
deriving DecidableEq, Inhabited

/-- A one-bit signal value: constant 0, constant 1, or a wire bit. -/
inductive SigVal
  | s0 | s1 | sig : Nat → SigVal
deriving DecidableEq, Inhabited

/-- An abstract memory write port; only the fields read by the embedded
phases.  `priority_mask` is indexed by the other write port's index. -/
structure WrPort where
  clk_enable : Bool
  clk : Nat
  clk_polarity : Bool
  priority_mask : List Bool
deriving DecidableEq, Inhabited

/-- An abstract memory read port; only the fields read by the embedded
phases.  The masks are indexed by write-port index. -/
structure RdPort where
  clk_enable : Bool
  clk : Nat
  clk_polarity : Bool
  en : SigVal
  arst : SigVal
  srst : SigVal
  init_value : List St
  arst_value : List St
  srst_value : List St
  ce_over_srst : Bool
  collision_x_mask : List Bool
  transparency_mask : List Bool
deriving DecidableEq, Inhabited

/-- An abstract memory: attributes, initializer data words, and ports. -/
structure Mem where
  attrs : List (String × ConstV)
  inits : List (List St)
  wr_ports : List WrPort
  rd_ports : List RdPort
deriving DecidableEq, Inhabited

/-- The netlist-dependent queries the engine consults, abstracted as oracles:
the two memoized SAT queries (memory_libmap.cc:1031, 1044) and the
sigmap-based `addr_compatible` check (memory_libmap.cc:1010), each keyed by
(write port index, read port index). -/
structure Env where
  implies : Nat → Nat → Bool
  excludes : Nat → Nat → Bool
  addr_compat : Nat → Nat → Bool

/-- Per-candidate state of one abstract write port (memory_libmap.cc:730);
`rd_port` is `none` for the source's `-1`. -/
structure WrPortConfig where
  rd_port : Option Nat
  port_def : Nat
  portopts : Options
  emu_prio : List Nat
deriving DecidableEq

instance : Inhabited WrPortConfig :=
  ⟨{ rd_port := none, port_def := 0, portopts := [], emu_prio := [] }⟩

/-- Per-candidate state of one abstract read port (memory_libmap.cc:747);
`wr_port` is `none` for the source's `-1`. -/
structure RdPortConfig where
  wr_port : Option Nat
  port_def : Nat
  portopts : Options
  resetvals : List (String × List St)
  emu_sync : Bool
  emu_en : Bool
  emu_arst : Bool
  emu_srst : Bool
  emu_init : Bool
  emu_srst_en_prio : Bool
  emu_trans : List Nat
deriving DecidableEq

instance : Inhabited RdPortConfig :=
  ⟨{ wr_port := none, port_def := 0, portopts := [], resetvals := [],
     emu_sync := false, emu_en := false, emu_arst := false, emu_srst := false,
     emu_init := false, emu_srst_en_prio := false, emu_trans := [] }⟩

/-- One mapping candidate (memory_libmap.cc:782), without the geometry fields
that only the unimplemented `handle_dims` would fill. -/
structure MemConfig where
  ram_def : Nat
  opts : Options
  wr_ports : List WrPortConfig
  rd_ports : List RdPortConfig
  clocks_anyedge : List (String × (Nat × Bool))
  clocks_pnedge : List (String × (Nat × Bool))
deriving DecidableEq

instance : Inhabited MemConfig :=
  ⟨{ ram_def := 0, opts := [], wr_ports := [], rd_ports := [],
     clocks_anyedge := [], clocks_pnedge := [] }⟩

/-- The candidate list. -/
abbrev MemConfigs := List MemConfig

/-- Source `apply_wrport_opts` (memory_libmap.cc:832): apply a capability's
`opts` to the candidate and its `portopts` to write port `pidx`, with the
same short-circuit as `apply_opts(...) && apply_opts(...)`. -/
def apply_wrport_opts {T : Type} (cfg : MemConfig) (pidx : Nat) (cap : Capability T) :
    Bool × MemConfig :=
  let r1 := apply_opts cfg.opts cap.opts
  let cfgA := { cfg with opts := r1.2 }
  if !r1.1 then (false, cfgA)
  else
    let pcfg := cfgA.wr_ports.getD pidx default
    let r2 := apply_opts pcfg.portopts cap.portopts
    (r2.1, { cfgA with wr_ports := cfgA.wr_ports.set pidx { pcfg with portopts := r2.2 } })

/-- Source `apply_rdport_opts` (memory_libmap.cc:838): like
`apply_wrport_opts` but for read port `pidx`, delegating to the merged write
port when the read port is shared. -/
def apply_rdport_opts {T : Type} (cfg : MemConfig) (pidx : Nat) (cap : Capability T) :
    Bool × MemConfig :=
  let pcfg := cfg.rd_ports.getD pidx default
  match pcfg.wr_port with
  | some w => apply_wrport_opts cfg w cap
  | none =>
    let r1 := apply_opts cfg.opts cap.opts
    let cfgA := { cfg with opts := r1.2 }
    if !r1.1 then (false, cfgA)
    else
      let r2 := apply_opts pcfg.portopts cap.portopts
      (r2.1, { cfgA with rd_ports := cfgA.rd_ports.set pidx { pcfg with portopts := r2.2 } })

/-- Source `wrport_opts_applied` (memory_libmap.cc:846). -/
def wrport_opts_applied {T : Type} (cfg : MemConfig) (pidx : Nat) (cap : Capability T) : Bool :=
  opts_applied cfg.opts cap.opts &&
    opts_applied (cfg.wr_ports.getD pidx default).portopts cap.portopts

/-- Source `rdport_opts_applied` (memory_libmap.cc:852). -/
def rdport_opts_applied {T : Type} (cfg : MemConfig) (pidx : Nat) (cap : Capability T) : Bool :=
  let pcfg := cfg.rd_ports.getD pidx default
  match pcfg.wr_port with
  | some w => wrport_opts_applied cfg w cap
  | none => opts_applied cfg.opts cap.opts && opts_applied pcfg.portopts cap.portopts

/-- Source `apply_clock` (memory_libmap.cc:860): bind a named clock tag to
(signal, flag), failing on a disagreeing existing binding. -/
def apply_clock (cfg : MemConfig) (cdef : ClockDef) (clk : Nat) (clk_polarity : Bool) :
    Bool × MemConfig :=
  if cdef.name = "" then (true, cfg)
  else if cdef.kind = ClkPolKind.anyedge then
    match alist_find cfg.clocks_anyedge cdef.name with
    | none =>
      (true, { cfg with clocks_anyedge := cfg.clocks_anyedge ++ [(cdef.name, (clk, clk_polarity))] })
    | some p => (decide (p = (clk, clk_polarity)), cfg)
  else
    let flip := xor clk_polarity (decide (cdef.kind = ClkPolKind.posedge))
    match alist_find cfg.clocks_pnedge cdef.name with
    | none =>
      (true, { cfg with clocks_pnedge := cfg.clocks_pnedge ++ [(cdef.name, (clk, flip))] })
    | some p => (decide (p = (clk, flip)), cfg)

/-- Source `apply_rstval` (memory_libmap.cc:883): check a reset value against
a `rdrstval` payload, binding named reset tags in `resetvals`. -/
def apply_rstval (pcfg : RdPortConfig) (rdef : ResetValDef) (val : List St) :
    Bool × RdPortConfig :=
  match rdef.val_kind with
  | ResetValKind.vnone => (false, pcfg)
  | ResetValKind.vzero => (val.all (fun b => decide (b ≠ St.s1)), pcfg)
  | ResetValKind.vnamed =>
    match alist_find pcfg.resetvals rdef.name with
    | none => (true, { pcfg with resetvals := pcfg.resetvals ++ [(rdef.name, val)] })
    | some v => (decide (v = val), pcfg)

/-- Decode of `Const::decode_string` on the embedded constants: strings decode
to themselves; a 32-bit integer decodes to its nonzero bytes, most significant
first. -/
def const_decode_string : ConstV → String
  | ConstV.str s => s
  | ConstV.int n =>
    let m := (n % (2 ^ 32 : Int)).toNat
    let bs := [m / 2 ^ 24 % 256, m / 2 ^ 16 % 256, m / 2 ^ 8 % 256, m % 256]
    String.mk (bs.filterMap (fun b => if b = 0 then none else some (Char.ofNat b)))

/-- `Const::as_bool` on the embedded constants: some bit is set. -/
def const_as_bool : ConstV → Bool
  | ConstV.int n => decide (n ≠ 0)
  | ConstV.str s => !s.isEmpty

/-- Attribute lookup on a memory. -/
def mem_get_attr (mem : Mem) (a : String) : Option ConstV := alist_find mem.attrs a

/-- `get_bool_attribute`: the attribute is present and truthy. -/
def mem_bool_attr (mem : Mem) (a : String) : Bool :=
  match mem_get_attr mem a with
  | some v => const_as_bool v
  | none => false

/-- The fixed attribute scan order of `determine_style` (memory_libmap.cc:1076). -/
def style_attrs : List String :=
  ["ram_block", "rom_block", "ram_style", "rom_style",
   "ramstyle", "romstyle", "syn_ramstyle", "syn_romstyle"]

/-- The kind/style decoding of one attribute value in `determine_style`
(memory_libmap.cc:1079-1097). -/
def style_of_attr_val (v : ConstV) : RamKind × String :=
  if v = ConstV.int 1 then (RamKind.notLogic, "")
  else
    let s := const_decode_string v
    if s = "auto" then (RamKind.auto, "")
    else if s = "logic" || s = "registers" then (RamKind.logic, "")
    else if s = "distributed" then (RamKind.distributed, "")
    else if s = "block" || s = "block_ram" || s = "ebr" then (RamKind.block, "")
    else if s = "huge" || s = "ultra" then (RamKind.huge, "")
    else (RamKind.notLogic, s)

/-- The attribute scan of `determine_style`: the first present attribute
decides and returns; `logic_block` is consulted only when none is present
(memory_libmap.cc:1073-1103). -/
def determine_style_go (mem : Mem) : List String → RamKind × String
  | [] => if mem_bool_attr mem "logic_block" then (RamKind.logic, "") else (RamKind.auto, "")
  | a :: rest =>
    match mem_get_attr mem a with
    | some v => style_of_attr_val v
    | none => determine_style_go mem rest

/-- Source `MemMapping::determine_style` (memory_libmap.cc:1073), returning
the (kind, style) pair the member fields are set to. -/
def determine_style (mem : Mem) : RamKind × String := determine_style_go mem style_attrs

/-- Source `MemMapping::determine_logic_ok` (memory_libmap.cc:1106), with the
kind argument being the result of `determine_style`. -/
def determine_logic_ok (mem : Mem) (kind : RamKind) : Bool :=
  if ¬(kind = RamKind.auto ∨ kind = RamKind.logic) then false
  else
    match mem.wr_ports with
    | [] => true
    | p0 :: _ =>
      mem.wr_ports.all (fun p =>
        p.clk_enable && decide (p.clk = p0.clk) && decide (p.clk_polarity = p0.clk_polarity))

/-- The `logic_ok` field as computed by the `MemMapping` constructor. -/
def memmapping_logic_ok (mem : Mem) : Bool :=
  determine_logic_ok mem (determine_style mem).1

/-- Indexed enumeration starting at `n`, mirroring `for (int i = 0; ...)`
loops over capability lists. -/
def enum_from {α : Type} (n : Nat) : List α → List (Nat × α)
  | [] => []
  | x :: xs => (n, x) :: enum_from (n + 1) xs

/-- The initial candidate set: one default `MemConfig` per RAM definition
(memory_libmap.cc:942-946). -/
def init_cfgs (lib : Library) : MemConfigs :=
  (List.range lib.length).map (fun i =>
    { ram_def := i, opts := [], wr_ports := [], rd_ports := [],
      clocks_anyedge := [], clocks_pnedge := [] })

/-- Source `MemMapping::handle_ram_kind` (memory_libmap.cc:1124): keep only
candidates of the requested kind (an empty result is fatal in the source). -/
def handle_ram_kind (lib : Library) (kind : RamKind) (cfgs : MemConfigs) : MemConfigs :=
  if kind = RamKind.auto ∨ kind = RamKind.notLogic then cfgs
  else cfgs.filter (fun cfg => decide ((lib.getD cfg.ram_def default).kind = kind))

/-- Source `MemMapping::handle_ram_style` (memory_libmap.cc:1153): split per
matching `style` capability, applying its opts (an empty result is fatal in
the source). -/
def handle_ram_style (lib : Library) (style : String) (cfgs : MemConfigs) : MemConfigs :=
  if style = "" then cfgs
  else cfgs.flatMap (fun cfg =>
    (lib.getD cfg.ram_def default).style.filterMap (fun sdef =>
      if sdef.val ≠ style then none
      else
        let r := apply_opts cfg.opts sdef.opts
        if r.1 then some { cfg with opts := r.2 } else none))

/-- Source `MemMapping::handle_init` (memory_libmap.cc:1173): if any
initializer has defined bits, split per matching `init` capability. -/
def handle_init (lib : Library) (mem : Mem) (cfgs : MemConfigs) : MemConfigs :=
  let has_nonx := mem.inits.any (fun d => !(d.all (fun b => decide (b = St.sx))))
  let has_one := mem.inits.any (fun d =>
    !(d.all (fun b => decide (b = St.sx))) && d.any (fun b => decide (b = St.s1)))
  if !has_nonx then cfgs
  else cfgs.flatMap (fun cfg =>
    (lib.getD cfg.ram_def default).init.filterMap (fun idef =>
      if has_one then
        if idef.val ≠ MemoryInitKind.iany then none
        else
          let r := apply_opts cfg.opts idef.opts
          if r.1 then some { cfg with opts := r.2 } else none
      else
        if idef.val ≠ MemoryInitKind.iany ∧ idef.val ≠ MemoryInitKind.izero then none
        else
          let r := apply_opts cfg.opts idef.opts
          if r.1 then some { cfg with opts := r.2 } else none))

/-- One clock-capability choice for a write port bound to group `i`
(memory_libmap.cc:1239-1250): apply the clock capability's opts and portopts,
then `apply_clock`; on success append the new write-port config. -/
def wr_clock_cfg (port : WrPort) (i : Nat) (cfg2 : MemConfig) (cdef : Capability ClockDef) :
    Option MemConfig :=
  let r1 := apply_opts cfg2.opts cdef.opts
  if !r1.1 then none
  else
    let cfg3 := { cfg2 with opts := r1.2 }
    let r2 := apply_opts ([] : Options) cdef.portopts
    if !r2.1 then none
    else
      let rc := apply_clock cfg3 cdef.val port.clk port.clk_polarity
      if !rc.1 then none
      else
        some { rc.2 with wr_ports := rc.2.wr_ports ++
          [{ rd_port := none, port_def := i, portopts := r2.2, emu_prio := [] }] }

/-- Candidates from binding one write port to port group `i` of its RAM
definition (memory_libmap.cc:1219-1251). -/
def wr_group_cfgs (port : WrPort) (cfg : MemConfig) (i : Nat)
    (gdef : Capability PortGroupDef) : MemConfigs :=
  if gdef.val.kind = PortKind.ar ∨ gdef.val.kind = PortKind.sr then []
  else if gdef.val.names.length ≤
      cfg.wr_ports.countP (fun o => decide (o.port_def = i)) then []
  else
    let r := apply_opts cfg.opts gdef.opts
    if !r.1 then []
    else
      let cfg2 := { cfg with opts := r.2 }
      gdef.val.clock.filterMap (wr_clock_cfg port i cfg2)

/-- All candidates from binding one write port, over all port groups. -/
def wr_port_cfg_gen (lib : Library) (port : WrPort) (cfg : MemConfig) : MemConfigs :=
  (enum_from 0 (lib.getD cfg.ram_def default).ports).flatMap
    (fun ig => wr_group_cfgs port cfg ig.1 ig.2)

/-- Source `MemMapping::handle_wr_ports` (memory_libmap.cc:1209): bind write
ports in order; an asynchronous write port clears the candidate set and
returns immediately. -/
def handle_wr_ports (lib : Library) : List WrPort → MemConfigs → MemConfigs
  | [], cfgs => cfgs
  | p :: rest, cfgs =>
    if !p.clk_enable then []
    else handle_wr_ports lib rest (cfgs.flatMap (wr_port_cfg_gen lib p))

/-- One clock-capability choice while binding an unshared sync read port
(memory_libmap.cc:1294-1302). -/
def rd_clock_step (port : RdPort) (cfg2 : MemConfig) (pcfg2 : RdPortConfig)
    (cdef : Capability ClockDef) : Option (MemConfig × RdPortConfig) :=
  let r1 := apply_opts cfg2.opts cdef.opts
  if !r1.1 then none
  else
    let cfg3 := { cfg2 with opts := r1.2 }
    let r2 := apply_opts pcfg2.portopts cdef.portopts
    if !r2.1 then none
    else
      let pcfg3 := { pcfg2 with portopts := r2.2 }
      let rc := apply_clock cfg3 cdef.val port.clk port.clk_polarity
      if !rc.1 then none else some (rc.2, pcfg3)

/-- One `rden`-capability choice while binding an unshared sync read port
(memory_libmap.cc:1304-1316). -/
def rd_en_step (port : RdPort) (cfg3 : MemConfig) (pcfg3 : RdPortConfig)
    (endef : Capability RdEnKind) : Option MemConfig :=
  let r1 := apply_opts cfg3.opts endef.opts
  if !r1.1 then none
  else
    let cfg4 := { cfg3 with opts := r1.2 }
    let r2 := apply_opts pcfg3.portopts endef.portopts
    if !r2.1 then none
    else
      let pcfg4a := { pcfg3 with portopts := r2.2 }
      let pcfg4 :=
        if endef.val = RdEnKind.rnone ∧ port.en ≠ SigVal.s1 then
          { pcfg4a with emu_en := true }
        else pcfg4a
      some { cfg4 with rd_ports := cfg4.rd_ports ++ [pcfg4] }

/-- The clock and `rden` splits while binding an unshared sync read port
(memory_libmap.cc:1293-1316). -/
def rd_unshared_sync (port : RdPort) (cfg2 : MemConfig) (pcfg2 : RdPortConfig)
    (gdef : Capability PortGroupDef) : MemConfigs :=
  gdef.val.clock.flatMap (fun cdef =>
    match rd_clock_step port cfg2 pcfg2 cdef with
    | none => []
    | some out =>
      gdef.val.rden.filterMap (fun endef => rd_en_step port out.1 out.2 endef))

/-- Candidates from binding one read port, unshared, to port group `i`
(memory_libmap.cc:1265-1323).  Group usage is counted against write ports
only: overuse by other read ports just results in memory duplication. -/
def rd_unshared_group (port : RdPort) (cfg : MemConfig) (i : Nat)
    (gdef : Capability PortGroupDef) : MemConfigs :=
  if gdef.val.kind = PortKind.sw then []
  else if !port.clk_enable ∧
      (gdef.val.kind = PortKind.sr ∨ gdef.val.kind = PortKind.srsw) then []
  else if gdef.val.names.length ≤
      cfg.wr_ports.countP (fun o => decide (o.port_def = i)) then []
  else
    let r := apply_opts cfg.opts gdef.opts
    if !r.1 then []
    else
      let cfg2 := { cfg with opts := r.2 }
      if gdef.val.kind = PortKind.sr ∨ gdef.val.kind = PortKind.srsw then
        rd_unshared_sync port cfg2
          { (default : RdPortConfig) with port_def := i, emu_sync := false } gdef
      else
        let pcfg2 : RdPortConfig :=
          { (default : RdPortConfig) with port_def := i, emu_sync := port.clk_enable }
        [{ cfg2 with rd_ports := cfg2.rd_ports ++ [pcfg2] }]

/-- One `rden`-capability choice while binding read port `pidx` shared with
write port `wpidx` on an `srsw` group (memory_libmap.cc:1356-1377). -/
def srsw_rden_one (env : Env) (port : RdPort) (wpidx pidx : Nat) (cfg2 : MemConfig)
    (pcfg2 : RdPortConfig) (endef : Capability RdEnKind) : Option MemConfig :=
  let r := apply_wrport_opts cfg2 wpidx endef
  if !r.1 then none
  else
    match endef.val with
    | RdEnKind.rnone =>
      some { r.2 with rd_ports := r.2.rd_ports ++
        [{ pcfg2 with emu_en := decide (port.en ≠ SigVal.s1) }] }
    | RdEnKind.rany =>
      some { r.2 with rd_ports := r.2.rd_ports ++ [pcfg2] }
    | RdEnKind.writeImplies =>
      some { r.2 with rd_ports := r.2.rd_ports ++
        [{ pcfg2 with emu_en := !env.implies wpidx pidx }] }
    | RdEnKind.writeExcludes =>
      if !env.excludes wpidx pidx then none
      else some { r.2 with rd_ports := r.2.rd_ports ++ [pcfg2] }

/-- Candidates from sharing read port `pidx` with already-bound write port
`wpidx` (memory_libmap.cc:1325-1382). -/
def rd_shared_one (lib : Library) (env : Env) (port : RdPort) (pidx : Nat)
    (cfg : MemConfig) (wpidx : Nat) (wport : WrPort) : MemConfigs :=
  let wpcfg := cfg.wr_ports.getD wpidx default
  let didx := wpcfg.port_def
  let gdef := (lib.getD cfg.ram_def default).ports.getD didx default
  if wpcfg.rd_port ≠ none then []
  else if gdef.val.kind = PortKind.sw then []
  else if !env.addr_compat wpidx pidx then []
  else if gdef.val.kind = PortKind.srsw ∧
      ¬(port.clk_enable ∧ port.clk = wport.clk ∧ port.clk_polarity = wport.clk_polarity) then []
  else
    let cfg2 := { cfg with wr_ports := cfg.wr_ports.set wpidx { wpcfg with rd_port := some pidx } }
    let pcfg2 : RdPortConfig :=
      { (default : RdPortConfig) with
        wr_port := some wpidx, port_def := didx
        emu_sync := port.clk_enable && decide (gdef.val.kind = PortKind.arsw) }
    if gdef.val.kind = PortKind.srsw then
      gdef.val.rden.filterMap (fun endef => srsw_rden_one env port wpidx pidx cfg2 pcfg2 endef)
    else
      [{ cfg2 with rd_ports := cfg2.rd_ports ++ [pcfg2] }]

/-- All candidates from binding read port `pidx` of one candidate: the
unshared pass over all port groups followed by the shared pass over all write
ports (memory_libmap.cc:1262-1383). -/
def rd_port_cfg_gen (lib : Library) (env : Env) (mem : Mem) (pidx : Nat)
    (cfg : MemConfig) : MemConfigs :=
  let port := mem.rd_ports.getD pidx default
  ((enum_from 0 (lib.getD cfg.ram_def default).ports).flatMap
    (fun ig => rd_unshared_group port cfg ig.1 ig.2)) ++
  ((enum_from 0 mem.wr_ports).flatMap
    (fun iw => rd_shared_one lib env port pidx cfg iw.1 iw.2))

/-- Source `MemMapping::handle_rd_ports` (memory_libmap.cc:1258): bind read
ports in index order. -/
def handle_rd_ports (lib : Library) (env : Env) (mem : Mem) (cfgs : MemConfigs) : MemConfigs :=
  (List.range mem.rd_ports.length).foldl
    (fun cs pidx => cs.flatMap (rd_port_cfg_gen lib env mem pidx)) cfgs

/-- The `found_free` loop skeleton shared by the transparency, priority and
reset phases: each capability contributes a list of derived candidates and a
"was free" flag; the flags are OR-ed and the lists concatenated in
declaration order, exactly as the source loops push into `new_cfgs`. -/
def caps_free_fold {β : Type} (f : β → MemConfigs × Bool) (caps : List β) :
    Bool × MemConfigs :=
  caps.foldl (fun acc c => let r := f c; (acc.1 || r.2, acc.2 ++ r.1)) (false, [])

/-- One `wrtrans` capability in `handle_trans` (memory_libmap.cc:1426-1457):
the capability matches if its target designates read port `rpidx` and its
kind fits the pair's transparency; a matching capability whose opts are
already applied is free and yields the unchanged clone, otherwise the clone
survives only if the opts apply. -/
def trans_cap_step (transparent : Bool) (rpidx wpidx : Nat) (cfg : MemConfig)
    (wpcfg : WrPortConfig) (rpdef : Capability PortGroupDef)
    (tdef : Capability WrTransDef) : MemConfigs × Bool :=
  let tmatch :=
    (match tdef.val.target_kind with
     | TransTargetKind.tself => decide (wpcfg.rd_port = some rpidx)
     | TransTargetKind.tother => decide (wpcfg.rd_port ≠ some rpidx)
     | TransTargetKind.tnamed => decide (rpdef.val.names.getD 0 "" = tdef.val.target_name)) &&
    (if transparent then decide (tdef.val.kind ≠ TransKind.told)
     else decide (tdef.val.kind = TransKind.told))
  ((if tmatch then
      (if wrport_opts_applied cfg wpidx tdef then some cfg
       else
         let r := apply_wrport_opts cfg wpidx tdef
         if r.1 then some r.2 else none).toList
    else []),
   tmatch && wrport_opts_applied cfg wpidx tdef)

/-- The per-candidate body of `handle_trans` for one restricted (read, write)
pair (memory_libmap.cc:1408-1465). -/
def handle_trans_cfg (lib : Library) (transparent : Bool) (rpidx wpidx : Nat)
    (cfg : MemConfig) : MemConfigs :=
  let rpcfg := cfg.rd_ports.getD rpidx default
  let rpcfgT := { rpcfg with emu_trans := rpcfg.emu_trans ++ [wpidx] }
  if rpcfg.emu_sync then
    if transparent then
      [{ cfg with rd_ports := cfg.rd_ports.set rpidx rpcfgT }]
    else [cfg]
  else
    let wpcfg := cfg.wr_ports.getD wpidx default
    let rdef := lib.getD cfg.ram_def default
    let wpdef := rdef.ports.getD wpcfg.port_def default
    let rpdef := rdef.ports.getD rpcfg.port_def default
    let res := caps_free_fold (trans_cap_step transparent rpidx wpidx cfg wpcfg rpdef)
      wpdef.val.wrtrans
    if !res.1 && transparent then
      res.2 ++ [{ cfg with rd_ports := cfg.rd_ports.set rpidx rpcfgT }]
    else res.2

/-- `handle_trans` for one (read, write) pair including the clock/collision
guards (memory_libmap.cc:1390-1404). -/
def handle_trans_rw (lib : Library) (mem : Mem) (rpidx wpidx : Nat)
    (cfgs : MemConfigs) : MemConfigs :=
  let rport := mem.rd_ports.getD rpidx default
  let wport := mem.wr_ports.getD wpidx default
  if !rport.clk_enable then cfgs
  else if !wport.clk_enable then cfgs
  else if rport.clk ≠ wport.clk then cfgs
  else if rport.clk_polarity ≠ wport.clk_polarity then cfgs
  else if rport.collision_x_mask.getD wpidx false then cfgs
  else cfgs.flatMap (handle_trans_cfg lib (rport.transparency_mask.getD wpidx false) rpidx wpidx)

/-- Source `MemMapping::handle_trans` (memory_libmap.cc:1389). -/
def handle_trans (lib : Library) (mem : Mem) (cfgs : MemConfigs) : MemConfigs :=
  (List.range mem.rd_ports.length).foldl (fun cs rpidx =>
    (List.range mem.wr_ports.length).foldl (fun cs2 wpidx =>
      handle_trans_rw lib mem rpidx wpidx cs2) cs) cfgs

/-- The per-candidate body of `handle_priority` for one (p1, p2) pair
(memory_libmap.cc:1480-1504).  Note that the source takes `p1cfg` from
`cfg.rd_ports[p1idx]` although `p1idx` is a write-port index
(memory_libmap.cc:1481); the embedding preserves this, using the default
config where the source's vector indexing would be out of bounds. -/
def handle_prio_cfg (lib : Library) (p1idx p2idx : Nat) (cfg : MemConfig) : MemConfigs :=
  let p1cfg := cfg.rd_ports.getD p1idx default
  let p2cfg := cfg.wr_ports.getD p2idx default
  let rdef := lib.getD cfg.ram_def default
  let p1def := rdef.ports.getD p1cfg.port_def default
  let p2def := rdef.ports.getD p2cfg.port_def default
  let res := caps_free_fold (fun prdef =>
    ((if decide (p1def.val.names.getD 0 "" = prdef.val) then
        (if wrport_opts_applied cfg p2idx prdef then some cfg
         else
           let r := apply_wrport_opts cfg p2idx prdef
           if r.1 then some r.2 else none).toList
      else []),
     decide (p1def.val.names.getD 0 "" = prdef.val) && wrport_opts_applied cfg p2idx prdef))
    p2def.val.wrprio
  let p2cfgE := { p2cfg with emu_prio := p2cfg.emu_prio ++ [p1idx] }
  if !res.1 then
    res.2 ++ [{ cfg with wr_ports := cfg.wr_ports.set p2idx p2cfgE }]
  else res.2

/-- Source `MemMapping::handle_priority` (memory_libmap.cc:1473). -/
def handle_priority (lib : Library) (mem : Mem) (cfgs : MemConfigs) : MemConfigs :=
  (List.range mem.wr_ports.length).foldl (fun cs p1idx =>
    (List.range mem.wr_ports.length).foldl (fun cs2 p2idx =>
      if (mem.wr_ports.getD p2idx default).priority_mask.getD p1idx false then
        cs2.flatMap (handle_prio_cfg lib p1idx p2idx)
      else cs2) cs) cfgs

/-- One `rdrstval` capability of the right scope in `handle_rd_init` /
`handle_rd_arst` (memory_libmap.cc:1533-1545, 1581-1593): apply the reset
value, then the free / splitting opts discipline. -/
def rd_rst_cap_step (kindSel : ResetKind) (val : List St) (pidx : Nat) (cfg : MemConfig)
    (rstdef : Capability ResetValDef) : MemConfigs × Bool :=
  if rstdef.val.kind ≠ kindSel then ([], false)
  else
    let pcfg := cfg.rd_ports.getD pidx default
    let rv := apply_rstval pcfg rstdef.val val
    if !rv.1 then ([], false)
    else
      let cfgA := { cfg with rd_ports := cfg.rd_ports.set pidx rv.2 }
      if rdport_opts_applied cfgA pidx rstdef then ([cfgA], true)
      else
        let r := apply_rdport_opts cfgA pidx rstdef
        if r.1 then ([r.2], false) else ([], false)

/-- Source `MemMapping::handle_rd_init` (memory_libmap.cc:1512). -/
def handle_rd_init (lib : Library) (mem : Mem) (cfgs : MemConfigs) : MemConfigs :=
  (List.range mem.rd_ports.length).foldl (fun cs pidx =>
    let port := mem.rd_ports.getD pidx default
    if !port.clk_enable then cs
    else if port.init_value.all (fun b => decide (b = St.sx)) then cs
    else cs.flatMap (fun cfg =>
      let pcfg := cfg.rd_ports.getD pidx default
      if pcfg.emu_sync then [cfg]
      else
        let pdef := (lib.getD cfg.ram_def default).ports.getD pcfg.port_def default
        let res := caps_free_fold (rd_rst_cap_step ResetKind.rinit port.init_value pidx cfg)
          pdef.val.rdrstval
        if !res.1 then
          res.2 ++ [{ cfg with rd_ports := cfg.rd_ports.set pidx { pcfg with emu_init := true } }]
        else res.2)) cfgs

/-- Source `MemMapping::handle_rd_arst` (memory_libmap.cc:1558). -/
def handle_rd_arst (lib : Library) (mem : Mem) (cfgs : MemConfigs) : MemConfigs :=
  (List.range mem.rd_ports.length).foldl (fun cs pidx =>
    let port := mem.rd_ports.getD pidx default
    if !port.clk_enable then cs
    else if port.arst = SigVal.s0 then cs
    else if port.arst_value.all (fun b => decide (b = St.sx)) then cs
    else cs.flatMap (fun cfg =>
      let pcfg := cfg.rd_ports.getD pidx default
      if pcfg.emu_sync then [cfg]
      else
        let pdef := (lib.getD cfg.ram_def default).ports.getD pcfg.port_def default
        let res := caps_free_fold (rd_rst_cap_step ResetKind.rasync port.arst_value pidx cfg)
          pdef.val.rdrstval
        if !res.1 then
          res.2 ++ [{ cfg with rd_ports := cfg.rd_ports.set pidx { pcfg with emu_arst := true } }]
        else res.2)) cfgs

/-- One `rdsrstmode` capability in `handle_rd_srst` (memory_libmap.cc:1645-1656):
set the priority-emulation flag when the capability's mode disagrees with the
port's `ce_over_srst`, then apply the capability's opts. -/
def srst_mode_step (port : RdPort) (pidx : Nat) (cfg2 : MemConfig)
    (mdef : Capability SrstKind) : Option MemConfig :=
  let pcfg := cfg2.rd_ports.getD pidx default
  let pr := (mdef.val = SrstKind.srstOverEn ∧ port.ce_over_srst) ∨
    (mdef.val = SrstKind.enOverSrst ∧ ¬port.ce_over_srst)
  let cfg3 :=
    if pr then
      { cfg2 with rd_ports := cfg2.rd_ports.set pidx { pcfg with emu_srst_en_prio := true } }
    else cfg2
  let r := apply_rdport_opts cfg3 pidx mdef
  if r.1 then some r.2 else none

/-- One `rdrstval sync` capability in `handle_rd_srst`
(memory_libmap.cc:1629-1658): the reset value and opts as in the other reset
phases, then — when the port has a non-constant enable — a split over the
`rdsrstmode` capabilities. -/
def rd_srst_cap_step (port : RdPort) (pidx : Nat) (mdefs : List (Capability SrstKind))
    (cfg : MemConfig) (rstdef : Capability ResetValDef) : MemConfigs × Bool :=
  if rstdef.val.kind ≠ ResetKind.rsync then ([], false)
  else
    let pcfg := cfg.rd_ports.getD pidx default
    let rv := apply_rstval pcfg rstdef.val port.srst_value
    if !rv.1 then ([], false)
    else
      let cfgA := { cfg with rd_ports := cfg.rd_ports.set pidx rv.2 }
      let fr := rdport_opts_applied cfgA pidx rstdef
      let cfg2opt :=
        if fr then some cfgA
        else
          let r := apply_rdport_opts cfgA pidx rstdef
          if r.1 then some r.2 else none
      match cfg2opt with
      | none => ([], fr)
      | some cfg2 =>
        if port.en = SigVal.s1 then ([cfg2], fr)
        else (mdefs.filterMap (fun mdef => srst_mode_step port pidx cfg2 mdef), fr)

/-- Source `MemMapping::handle_rd_srst` (memory_libmap.cc:1606). -/
def handle_rd_srst (lib : Library) (mem : Mem) (cfgs : MemConfigs) : MemConfigs :=
  (List.range mem.rd_ports.length).foldl (fun cs pidx =>
    let port := mem.rd_ports.getD pidx default
    if !port.clk_enable then cs
    else if port.srst = SigVal.s0 then cs
    else if port.srst_value.all (fun b => decide (b = St.sx)) then cs
    else cs.flatMap (fun cfg =>
      let pcfg := cfg.rd_ports.getD pidx default
      if pcfg.emu_sync then [cfg]
      else
        let pdef := (lib.getD cfg.ram_def default).ports.getD pcfg.port_def default
        let res := caps_free_fold
          (rd_srst_cap_step port pidx pdef.val.rdsrstmode cfg) pdef.val.rdrstval
        if !res.1 then
          res.2 ++ [{ cfg with rd_ports := cfg.rd_ports.set pidx { pcfg with emu_srst := true } }]
        else res.2)) cfgs

/-- The candidate set after the transparency phase, before priority
handling. -/
def pre_prio_cfgs (lib : Library) (env : Env) (mem : Mem) : MemConfigs :=
  handle_trans lib mem
    (handle_rd_ports lib env mem
      (handle_wr_ports lib mem.wr_ports
        (handle_init lib mem
          (handle_ram_style lib (determine_style mem).2
            (handle_ram_kind lib (determine_style mem).1 (init_cfgs lib))))))

/-- The full candidate-enumeration pipeline of the `MemMapping` constructor
(memory_libmap.cc:937-959): when the determined kind is `logic` the candidate
set stays empty, otherwise the pruning phases run in their fixed order. -/
def run_mapping (lib : Library) (env : Env) (mem : Mem) : MemConfigs :=
  if (determine_style mem).1 = RamKind.logic then []
  else
    handle_rd_srst lib mem
      (handle_rd_arst lib mem
        (handle_rd_init lib mem
          (handle_priority lib mem (pre_prio_cfgs lib env mem))))

/-- A capability with empty option scopes. -/
def capE {T : Type} (v : T) : Capability T := { val := v, opts := [], portopts := [] }

/-- A trivially-true oracle environment. -/
def envT : Env :=
  { implies := fun _ _ => true, excludes := fun _ _ => true, addr_compat := fun _ _ => true }

/-- The abstract-port usage of port group `i` in a candidate as the spec
counts it: bound write ports plus unshared bound read ports, a shared
read+write pair counting once (through its write port). -/
def group_usage (cfg : MemConfig) (i : Nat) : Nat :=
  cfg.wr_ports.countP (fun p => decide (p.port_def = i)) +
  cfg.rd_ports.countP (fun r => decide (r.port_def = i ∧ r.wr_port = none))

/-- Modelled from the claim: the per-candidate priority body with `p1cfg`
taken from the *write*-port config of `p1idx`, so that `wrprio` capability
targets are matched against the first name of the port group write port `p1`
is bound to. -/
def handle_prio_cfg_claim (lib : Library) (p1idx p2idx : Nat) (cfg : MemConfig) : MemConfigs :=
  let p1cfg := cfg.wr_ports.getD p1idx default
  let p2cfg := cfg.wr_ports.getD p2idx default
  let rdef := lib.getD cfg.ram_def default
  let p1def := rdef.ports.getD p1cfg.port_def default
  let p2def := rdef.ports.getD p2cfg.port_def default
  let res := caps_free_fold (fun prdef =>
    ((if decide (p1def.val.names.getD 0 "" = prdef.val) then
        (if wrport_opts_applied cfg p2idx prdef then some cfg
         else
           let r := apply_wrport_opts cfg p2idx prdef
           if r.1 then some r.2 else none).toList
      else []),
     decide (p1def.val.names.getD 0 "" = prdef.val) && wrport_opts_applied cfg p2idx prdef))
    p2def.val.wrprio
  let p2cfgE := { p2cfg with emu_prio := p2cfg.emu_prio ++ [p1idx] }
  if !res.1 then
    res.2 ++ [{ cfg with wr_ports := cfg.wr_ports.set p2idx p2cfgE }]
  else res.2

/-- Modelled from the claim: `handle_priority` built on the claim's reading
of the per-candidate body. -/
def handle_priority_claim (lib : Library) (mem : Mem) (cfgs : MemConfigs) : MemConfigs :=
  (List.range mem.wr_ports.length).foldl (fun cs p1idx =>
    (List.range mem.wr_ports.length).foldl (fun cs2 p2idx =>
      if (mem.wr_ports.getD p2idx default).priority_mask.getD p1idx false then
        cs2.flatMap (handle_prio_cfg_claim lib p1idx p2idx)
      else cs2) cs) cfgs

/-- A writeable one-name `sw` port group named "W0" with an unnamed anyedge
clock. -/
def c1_g0 : Capability PortGroupDef := capE
  { kind := PortKind.sw, names := ["W0"],
    clock := [capE { kind := ClkPolKind.anyedge, name := "" }],
    rden := [], rdrstval := [], rdsrstmode := [], wrprio := [], wrtrans := [] }

/-- A one-name `sw` port group named "W1" declaring `wrprio "W0"`. -/
def c1_g1 : Capability PortGroupDef := capE
  { kind := PortKind.sw, names := ["W1"],
    clock := [capE { kind := ClkPolKind.anyedge, name := "" }],
    rden := [], rdrstval := [], rdsrstmode := [], wrprio := [capE "W0"], wrtrans := [] }

/-- A one-name async read port group named "R0". -/
def c1_g2 : Capability PortGroupDef := capE
  { kind := PortKind.ar, names := ["R0"],
    clock := [], rden := [], rdrstval := [], rdsrstmode := [], wrprio := [], wrtrans := [] }

/-- A library with one RAM definition carrying the three groups above. -/
def c1_lib : Library :=
  [{ id := "RAM1", kind := RamKind.block, ports := [c1_g0, c1_g1, c1_g2],
     dims := [capE (10, 16)], init := [], style := [] }]

/-- A clocked write port on clock 0 with no priority obligations. -/
def c1_w0 : WrPort := { clk_enable := true, clk := 0, clk_polarity := true, priority_mask := [] }

/-- A clocked write port that must respect priority over write port 0. -/
def c1_w1 : WrPort :=
  { clk_enable := true, clk := 0, clk_polarity := true, priority_mask := [true] }

/-- An async read port with constant-1 enable and no resets. -/
def c1_r0 : RdPort :=
  { clk_enable := false, clk := 0, clk_polarity := true, en := SigVal.s1,
    arst := SigVal.s0, srst := SigVal.s0, init_value := [], arst_value := [],
    srst_value := [], ce_over_srst := false, collision_x_mask := [],
    transparency_mask := [] }

/-- A memory with two write ports (the second prioritized over the first)
and one async read port. -/
def c1_mem : Mem :=
  { attrs := [], inits := [], wr_ports := [c1_w0, c1_w1], rd_ports := [c1_r0] }

/-- A one-name async read port group named "A". -/
def c2_g0 : Capability PortGroupDef := capE
  { kind := PortKind.ar, names := ["A"],
    clock := [], rden := [], rdrstval := [], rdsrstmode := [], wrprio := [], wrtrans := [] }

/-- A library with a single RAM definition whose only port group has one
name. -/
def c2_lib : Library :=
  [{ id := "RAM2", kind := RamKind.block, ports := [c2_g0],
     dims := [capE (10, 16)], init := [], style := [] }]

/-- A memory with no write ports and two async read ports. -/
def c2_mem : Mem :=
  { attrs := [], inits := [], wr_ports := [], rd_ports := [c1_r0, c1_r0] }

/-- A library whose only port group is a one-name async read group. -/
def c9_lib : Library :=
  [{ id := "RAM3", kind := RamKind.block, ports := [c2_g0],
     dims := [capE (10, 16)], init := [], style := [] }]

/-- A clocked read port with constant-1 enable and no resets. -/
def c9_r0 : RdPort :=
  { clk_enable := true, clk := 0, clk_polarity := true, en := SigVal.s1,
    arst := SigVal.s0, srst := SigVal.s0, init_value := [], arst_value := [],
    srst_value := [], ce_over_srst := false, collision_x_mask := [],
    transparency_mask := [] }

/-- A memory with one sync read port and no write ports. -/
def c9_mem : Mem :=
  { attrs := [], inits := [], wr_ports := [], rd_ports := [c9_r0] }

/-- Modelled from the claim: the logic-fallback predicate with "all write
ports share clock-enable, clock signal, and clock polarity" read as agreement
of the triple (clk_enable, clk, clk_polarity) across the write ports. -/
def logic_ok_claim (mem : Mem) : Bool :=
  let kind := (determine_style mem).1
  (decide (kind = RamKind.auto) || decide (kind = RamKind.logic)) &&
    (match mem.wr_ports with
     | [] => true
     | p0 :: _ =>
       mem.wr_ports.all (fun p =>
         decide (p.clk_enable = p0.clk_enable) && decide (p.clk = p0.clk) &&
           decide (p.clk_polarity = p0.clk_polarity)))

/-- Amended logic-fallback predicate: the kind is auto or logic, and either
there are no write ports or every write port is clocked and shares clock
signal and polarity with the first one. -/
def logic_ok_amended (mem : Mem) : Bool :=
  let kind := (determine_style mem).1
  (decide (kind = RamKind.auto) || decide (kind = RamKind.logic)) &&
    (match mem.wr_ports with
     | [] => true
     | p0 :: _ =>
       mem.wr_ports.all (fun p =>
         p.clk_enable && decide (p.clk = p0.clk) && decide (p.clk_polarity = p0.clk_polarity)))

/-- A memory with no style attributes and a single asynchronous write port. -/
def c6_mem : Mem :=
  { attrs := [],
    inits := [],
    wr_ports := [{ clk_enable := false, clk := 0, clk_polarity := true, priority_mask := [] }],
    rd_ports := [] }

/-- Modelled from the claim: the style mapping table of `determine_style` as
the claim lists it, applied to the first present attribute of the fixed scan
order. -/
def style_table_claim (v : ConstV) : RamKind × String :=
  if v = ConstV.int 1 then (RamKind.notLogic, "")
  else
    let s := const_decode_string v
    if s = "auto" then (RamKind.auto, "")
    else if ["logic", "registers"].contains s then (RamKind.logic, "")
    else if s = "distributed" then (RamKind.distributed, "")
    else if ["block", "block_ram", "ebr"].contains s then (RamKind.block, "")
    else if ["huge", "ultra"].contains s then (RamKind.huge, "")
    else (RamKind.notLogic, s)

/-- Amended style determination: the first present attribute of the fixed
scan order decides via the claim's table; the boolean `logic_block`
attribute forces `logic` only when none of the eight attributes is
present. -/
def determine_style_amended (mem : Mem) : RamKind × String :=
  match style_attrs.findSome? (fun a => mem_get_attr mem a) with
  | some v => style_table_claim v
  | none =>
    if mem_bool_attr mem "logic_block" then (RamKind.logic, "") else (RamKind.auto, "")

/-- A memory carrying both `ram_block = 1` and the boolean `logic_block`
attribute. -/
def c5_mem : Mem :=
  { attrs := [("ram_block", ConstV.int 1), ("logic_block", ConstV.int 1)],
    inits := [], wr_ports := [], rd_ports := [] }

/-- C1 (code_bug): at the concrete input `c1_lib` / `c1_mem`, write port 1
must respect priority over write port 0, write port 0's bound group is
"W0"-first-named in the first surviving candidate, and group "W1" declares a
`wrprio` capability targeting "W0" with empty option scopes (hence free).
The claim says the engine matches `wrprio` targets against write port p1's
bound group and emits no emulation clone when a free capability matches; the
code instead matches against `cfg.rd_ports[p1]`'s group ("R0"), finds no
match, and appends `p1` to `emu_prio` in every candidate, as the first
equation shows; the second equation shows the claim's reading on the same
input. -/
theorem prio_group_divergence :
    (handle_priority c1_lib c1_mem (pre_prio_cfgs c1_lib envT c1_mem)).map
        (fun c => ((c.wr_ports.getD 0 default).port_def, (c.wr_ports.getD 1 default).emu_prio))
      = [(0, [0]), (1, [0])] ∧
    (handle_priority_claim c1_lib c1_mem (pre_prio_cfgs c1_lib envT c1_mem)).map
        (fun c => ((c.wr_ports.getD 0 default).port_def, (c.wr_ports.getD 1 default).emu_prio))
      = [(0, []), (1, [0])] ∧
    c1_g1.val.wrprio.map (fun p => p.val) = [c1_g0.val.names.getD 0 ""] ∧
    (c1_mem.wr_ports.getD 1 default).priority_mask.getD 0 false = true := by
  decide

/-- C2 (counterexample): on `c2_lib` / `c2_mem` the full pipeline produces a
single candidate in which two abstract ports (two unshared read ports) are
bound to port group 0, although that group declares only one name — the
claimed read+write usage bound fails. -/
theorem group_usage_overflow_example :
    (run_mapping c2_lib envT c2_mem).map (fun c => group_usage c 0) = [2] ∧
    ((c2_lib.getD 0 default).ports.getD 0 default).val.names.length = 1 := by
  decide

/-- C10: `apply_opts` is not atomic on failure: with `dst = [k → 1]` and
`src = [a → 2, k → 2]` it fails, yet the destination it returns is not the
original `dst` — the absent key `a`, examined before the conflicting key `k`,
has already been inserted. -/
theorem apply_opts_not_atomic :
    (apply_opts [("k", ConstV.int 1)] [("a", ConstV.int 2), ("k", ConstV.int 2)]).1 = false ∧
    (apply_opts [("k", ConstV.int 1)] [("a", ConstV.int 2), ("k", ConstV.int 2)]).2 ≠
      [("k", ConstV.int 1)] ∧
    (apply_opts [("k", ConstV.int 1)] [("a", ConstV.int 2), ("k", ConstV.int 2)]).2 =
      [("k", ConstV.int 1)] ++ [("a", ConstV.int 2)] := by
  decide

/-- C5 (counterexample): on a memory with `ram_block = 1` and `logic_block`
both set, `determine_style` returns `not_logic`, not `logic` — the claim's
"whenever logic_block is set the resulting kind is logic" fails. -/
theorem logic_block_override_counterexample :
    mem_bool_attr c5_mem "logic_block" = true ∧
    (determine_style c5_mem).1 = RamKind.notLogic ∧
    (determine_style c5_mem).1 ≠ RamKind.logic := by
  decide

/-- C6 (counterexample): on a memory with one asynchronous write port and no
style attributes, all write ports (there is one) trivially share clk_enable,
clock and polarity, so the claim's predicate is true, but
`determine_logic_ok` returns false. -/
theorem logic_ok_share_counterexample :
    memmapping_logic_ok c6_mem = false ∧ logic_ok_claim c6_mem = true := by
  decide

theorem style_table_eq (v : ConstV) : style_of_attr_val v = style_table_claim v := by
  unfold style_of_attr_val style_table_claim
  simp only [List.contains_cons, List.contains_nil, Bool.or_false, Bool.or_assoc,
    show ∀ a b : String, (a == b) = decide (a = b) from fun _ _ => rfl]

theorem determine_style_go_eq (mem : Mem) (l : List String) :
    determine_style_go mem l =
      match l.findSome? (fun a => mem_get_attr mem a) with
      | some v => style_of_attr_val v
      | none =>
        if mem_bool_attr mem "logic_block" then (RamKind.logic, "")
        else (RamKind.auto, "") := by
  induction l with
  | nil => rfl
  | cons a rest ih =>
    simp only [determine_style_go, List.findSome?_cons]
    cases mem_get_attr mem a <;> simp [ih]

/-- C5 (amended): `determine_style` inspects the eight attributes in their
fixed order; the first present one decides the kind via the claim's value
table, and the boolean `logic_block` attribute forces `logic` exactly when
none of the eight attributes is present. -/
theorem determine_style_eq_amended (mem : Mem) :
    determine_style mem = determine_style_amended mem := by
  unfold determine_style determine_style_amended
  rw [determine_style_go_eq]
  cases style_attrs.findSome? (fun a => mem_get_attr mem a) <;>
    simp [style_table_eq]

/-- C6 (amended): `logic_ok` is true iff the determined kind is auto or
logic and either there are no write ports or every write port is clocked
(`clk_enable` set) and shares clock signal and clock polarity with the
others. -/
theorem logic_ok_eq_amended (mem : Mem) :
    memmapping_logic_ok mem = logic_ok_amended mem := by
  unfold memmapping_logic_ok determine_logic_ok logic_ok_amended
  cases hk : (determine_style mem).1 <;> simp

/-- C7: if any abstract write port is asynchronous (`clk_enable` false), the
write-port binding phase returns the empty candidate set; the embedded phase
is a total function with no fatal-error path, matching the source, which
contains no `log_error` in `handle_wr_ports`. -/
theorem async_wr_clears_cfgs (lib : Library) (ports : List WrPort) :
    ∀ cfgs : MemConfigs, (∃ p ∈ ports, p.clk_enable = false) →
      handle_wr_ports lib ports cfgs = [] := by
  induction ports with
  | nil =>
    intro cfgs h
    rcases h with ⟨p, hp, _⟩
    exact absurd hp (List.not_mem_nil p)
  | cons q rest ih =>
    intro cfgs h
    rcases h with ⟨p, hp, hpe⟩
    rcases List.mem_cons.mp hp with rfl | hmem
    · simp [handle_wr_ports, hpe]
    · unfold handle_wr_ports
      by_cases hq : q.clk_enable
      · simp only [hq, Bool.not_true, Bool.false_eq_true, if_false]
        exact ih _ ⟨p, hmem, hpe⟩
      · simp [hq]

theorem async_wr_clears_cfgs_witness :
    handle_wr_ports c2_lib
      [{ clk_enable := false, clk := 0, clk_polarity := true, priority_mask := [] }]
      (init_cfgs c2_lib) = [] :=
  async_wr_clears_cfgs c2_lib _ _ ⟨_, List.mem_cons_self _ _, rfl⟩

/-- Modelled from the claim: one `rden` capability while binding a shared
srsw read port — for `write_excludes` the binding is dropped entirely iff the
exclusion query is false; otherwise, if the capability's opts apply, the
clone is emitted with `emu_en` set per capability value: `none` sets it iff
the abstract enable differs from constant 1, `any` adds no constraint,
`write_implies` sets it iff the implication query is false. -/
def srsw_rden_one_spec (env : Env) (port : RdPort) (wpidx pidx : Nat) (cfg2 : MemConfig)
    (pcfg2 : RdPortConfig) (endef : Capability RdEnKind) : Option MemConfig :=
  if endef.val = RdEnKind.writeExcludes ∧ env.excludes wpidx pidx = false then none
  else
    let r := apply_wrport_opts cfg2 wpidx endef
    if !r.1 then none
    else
      let emu :=
        match endef.val with
        | RdEnKind.rnone => decide (port.en ≠ SigVal.s1)
        | RdEnKind.rany => pcfg2.emu_en
        | RdEnKind.writeImplies => !env.implies wpidx pidx
        | RdEnKind.writeExcludes => pcfg2.emu_en
      some { r.2 with rd_ports := r.2.rd_ports ++ [{ pcfg2 with emu_en := emu }] }

/-- C3: the shared-srsw `rden` handling of `handle_rd_ports` coincides with
the claim's description for every capability: `none` sets `emu_en` iff the
abstract read enable differs from constant 1, `any` adds no constraint,
`write_implies` sets `emu_en` iff `wr_enable_implies_rd_enable` is false, and
`write_excludes` drops the shared binding entirely iff
`wr_enable_excludes_rd_enable` is false. -/
theorem srsw_rden_refines_spec (env : Env) (port : RdPort) (wpidx pidx : Nat)
    (cfg2 : MemConfig) (pcfg2 : RdPortConfig) (endef : Capability RdEnKind) :
    srsw_rden_one env port wpidx pidx cfg2 pcfg2 endef =
      srsw_rden_one_spec env port wpidx pidx cfg2 pcfg2 endef := by
  unfold srsw_rden_one srsw_rden_one_spec
  cases he : endef.val <;>
    by_cases hr : (apply_wrport_opts cfg2 wpidx endef).1 <;>
      by_cases hx : env.excludes wpidx pidx <;>
        simp [he, hr, hx]

/-- Modelled from the claim: a `wrtrans` capability matches the pair (r, w)
when its target designates the read port — `self` iff the pair shares a
physical port, `other` iff it does not, `named` iff the read group's first
name equals the name — and its kind is `new` for transparent pairs and `old`
for non-transparent pairs. -/
def trans_cap_matches (transparent : Bool) (rpidx : Nat) (wpcfg : WrPortConfig)
    (rpdef : Capability PortGroupDef) (tdef : Capability WrTransDef) : Bool :=
  (match tdef.val.target_kind with
   | TransTargetKind.tself => decide (wpcfg.rd_port = some rpidx)
   | TransTargetKind.tother => decide (wpcfg.rd_port ≠ some rpidx)
   | TransTargetKind.tnamed => decide (rpdef.val.names.getD 0 "" = tdef.val.target_name)) &&
  (if transparent then decide (tdef.val.kind = TransKind.tnew)
   else decide (tdef.val.kind = TransKind.told))

/-- Modelled from the claim: the per-candidate transparency body — an
`emu_sync` read port passes through unchanged except for appending `w` to
`emu_trans` when transparent; otherwise the candidate splits across the
matching `wrtrans` capabilities (an already-applied one is free and keeps the
clone unchanged, the others survive only if their opts apply), and an
emulation-only clone is additionally emitted iff the pair is transparent and
no free capability was found. -/
def handle_trans_cfg_spec (lib : Library) (transparent : Bool) (rpidx wpidx : Nat)
    (cfg : MemConfig) : MemConfigs :=
  let rpcfg := cfg.rd_ports.getD rpidx default
  let rpcfgT := { rpcfg with emu_trans := rpcfg.emu_trans ++ [wpidx] }
  if rpcfg.emu_sync then
    if transparent then
      [{ cfg with rd_ports := cfg.rd_ports.set rpidx rpcfgT }]
    else [cfg]
  else
    let wpcfg := cfg.wr_ports.getD wpidx default
    let rdef := lib.getD cfg.ram_def default
    let wpdef := rdef.ports.getD wpcfg.port_def default
    let rpdef := rdef.ports.getD rpcfg.port_def default
    let ms := wpdef.val.wrtrans.filter (trans_cap_matches transparent rpidx wpcfg rpdef)
    let free := ms.any (fun tdef => wrport_opts_applied cfg wpidx tdef)
    let outs := ms.filterMap (fun tdef =>
      if wrport_opts_applied cfg wpidx tdef then some cfg
      else
        let r := apply_wrport_opts cfg wpidx tdef
        if r.1 then some r.2 else none)
    if transparent && !free then
      outs ++ [{ cfg with rd_ports := cfg.rd_ports.set rpidx rpcfgT }]
    else outs

/-- Modelled from the claim: the per-pair guards of the transparency phase. -/
def handle_trans_rw_spec (lib : Library) (mem : Mem) (rpidx wpidx : Nat)
    (cfgs : MemConfigs) : MemConfigs :=
  let rport := mem.rd_ports.getD rpidx default
  let wport := mem.wr_ports.getD wpidx default
  if !rport.clk_enable then cfgs
  else if !wport.clk_enable then cfgs
  else if rport.clk ≠ wport.clk then cfgs
  else if rport.clk_polarity ≠ wport.clk_polarity then cfgs
  else if rport.collision_x_mask.getD wpidx false then cfgs
  else cfgs.flatMap (handle_trans_cfg_spec lib (rport.transparency_mask.getD wpidx false) rpidx wpidx)

/-- Modelled from the claim: the whole transparency phase. -/
def handle_trans_spec (lib : Library) (mem : Mem) (cfgs : MemConfigs) : MemConfigs :=
  (List.range mem.rd_ports.length).foldl (fun cs rpidx =>
    (List.range mem.wr_ports.length).foldl (fun cs2 wpidx =>
      handle_trans_rw_spec lib mem rpidx wpidx cs2) cs) cfgs

theorem caps_free_fold_eq {β : Type} (f : β → MemConfigs × Bool) (caps : List β) :
    caps_free_fold f caps =
      (caps.any (fun c => (f c).2), caps.flatMap (fun c => (f c).1)) := by
  have go : ∀ (cs : List β) (acc : Bool × MemConfigs),
      cs.foldl (fun acc c => let r := f c; (acc.1 || r.2, acc.2 ++ r.1)) acc =
        (acc.1 || cs.any (fun c => (f c).2), acc.2 ++ cs.flatMap (fun c => (f c).1)) := by
    intro cs
    induction cs with
    | nil => intro acc; simp
    | cons c rest ih => intro acc; simp [ih, Bool.or_assoc]
  simp [caps_free_fold, go]

theorem flatMap_if_toList {β γ : Type} (caps : List β) (m : β → Bool) (g : β → Option γ) :
    caps.flatMap (fun c => if m c then (g c).toList else []) = (caps.filter m).filterMap g := by
  induction caps with
  | nil => rfl
  | cons c rest ih =>
    by_cases hm : m c
    · simp only [List.flatMap_cons, List.filter_cons, hm, if_true, List.filterMap_cons]
      cases g c <;> simp [ih]
    · simp [hm, ih, List.filter_cons]

theorem any_filter_and {β : Type} (caps : List β) (m q : β → Bool) :
    (caps.filter m).any q = caps.any (fun c => m c && q c) := by
  induction caps with
  | nil => rfl
  | cons c rest ih => by_cases hm : m c <;> simp [hm, List.filter_cons, ih]

theorem told_not_eq (k : TransKind) :
    decide (k ≠ TransKind.told) = decide (k = TransKind.tnew) := by
  cases k <;> rfl

theorem trans_cap_step_fst (transparent : Bool) (rpidx wpidx : Nat) (cfg : MemConfig)
    (wpcfg : WrPortConfig) (rpdef : Capability PortGroupDef) (tdef : Capability WrTransDef) :
    (trans_cap_step transparent rpidx wpidx cfg wpcfg rpdef tdef).1 =
      if trans_cap_matches transparent rpidx wpcfg rpdef tdef then
        (if wrport_opts_applied cfg wpidx tdef then some cfg
         else
           let r := apply_wrport_opts cfg wpidx tdef
           if r.1 then some r.2 else none).toList
      else [] := by
  simp only [trans_cap_step, trans_cap_matches, told_not_eq]

theorem trans_cap_step_snd (transparent : Bool) (rpidx wpidx : Nat) (cfg : MemConfig)
    (wpcfg : WrPortConfig) (rpdef : Capability PortGroupDef) (tdef : Capability WrTransDef) :
    (trans_cap_step transparent rpidx wpidx cfg wpcfg rpdef tdef).2 =
      (trans_cap_matches transparent rpidx wpcfg rpdef tdef &&
        wrport_opts_applied cfg wpidx tdef) := by
  simp only [trans_cap_step, trans_cap_matches, told_not_eq]

theorem trans_cfg_eq : handle_trans_cfg = handle_trans_cfg_spec := by
  funext lib transparent rpidx wpidx cfg
  unfold handle_trans_cfg handle_trans_cfg_spec
  by_cases hs : (cfg.rd_ports.getD rpidx default).emu_sync = true
  · rw [if_pos hs, if_pos hs]
  · rw [if_neg hs, if_neg hs]
    simp only [caps_free_fold_eq, trans_cap_step_fst, trans_cap_step_snd,
      flatMap_if_toList, any_filter_and, Bool.and_comm]

/-- C4: the transparency phase coincides with the claim's description: for
each clocked same-clock pair with `collision_x_mask` clear, an `emu_sync`
read port just collects `w` in `emu_trans` when transparent; otherwise the
candidate splits across the matching `wrtrans` capabilities of the write
group (target `self` iff shared, `other` iff not, `named` iff the read
group's first name matches; kind `new` for transparent and `old` for
non-transparent pairs), an `is_applied` capability counting as free, with an
emulation clone added iff transparent and no free capability exists. -/
theorem handle_trans_refines_spec (lib : Library) (mem : Mem) (cfgs : MemConfigs) :
    handle_trans lib mem cfgs = handle_trans_spec lib mem cfgs := by
  unfold handle_trans handle_trans_spec handle_trans_rw handle_trans_rw_spec
  rw [trans_cfg_eq]

/-- Left-biased choice on optional constants, the lookup shape of an
appended association list. -/
def oor (a b : Option ConstV) : Option ConstV :=
  match a with
  | some v => some v
  | none => b

theorem oor_some (v : ConstV) (b : Option ConstV) : oor (some v) b = some v := rfl

theorem oor_none (b : Option ConstV) : oor none b = b := rfl

theorem opts_find_append (l1 l2 : Options) (k : String) :
    opts_find (l1 ++ l2) k = oor (opts_find l1 k) (opts_find l2 k) := by
  induction l1 with
  | nil => rfl
  | cons kv rest ih =>
    by_cases h : kv.1 = k
    · simp [opts_find, alist_find, h, oor]
    · simp only [List.cons_append, opts_find, alist_find, if_neg h]
      exact ih

theorem opts_find_single (kv : String × ConstV) (k : String) :
    opts_find [kv] k = if kv.1 = k then some kv.2 else none := rfl

theorem opts_find_mem (l : Options) (k : String) (v : ConstV)
    (h : opts_find l k = some v) : ∃ kv ∈ l, kv.1 = k ∧ kv.2 = v := by
  induction l with
  | nil => cases h
  | cons kv rest ih =>
    by_cases hk : kv.1 = k
    · refine ⟨kv, List.mem_cons_self _ _, hk, ?_⟩
      simpa [opts_find, alist_find, hk] using h
    · have h2 : opts_find rest k = some v := by
        simpa [opts_find, alist_find, hk] using h
      obtain ⟨kv2, hmem, hk2, hv2⟩ := ih h2
      exact ⟨kv2, List.mem_cons_of_mem _ hmem, hk2, hv2⟩

theorem apply_opts_persist (src : Options) : ∀ (dst : Options) (k : String) (v : ConstV),
    opts_find dst k = some v → opts_find (apply_opts dst src).2 k = some v := by
  induction src with
  | nil => intro dst k v h; exact h
  | cons kv rest ih =>
    intro dst k v h
    unfold apply_opts
    cases hf : opts_find dst kv.1 with
    | none =>
      refine ih _ k v ?_
      rw [opts_find_append, h, oor_some]
    | some v2 =>
      dsimp only
      by_cases he : v2 = kv.2
      · rw [if_pos he]; exact ih dst k v h
      · rw [if_neg he]; exact h

theorem apply_opts_origin (src : Options) : ∀ (dst : Options) (k : String) (v : ConstV),
    opts_find (apply_opts dst src).2 k = some v →
    opts_find dst k = some v ∨ (opts_find dst k = none ∧ opts_find src k = some v) := by
  induction src with
  | nil => intro dst k v h; exact Or.inl h
  | cons kv rest ih =>
    intro dst k v h
    unfold apply_opts at h
    cases hf : opts_find dst kv.1 with
    | none =>
      simp only [hf] at h
      rcases ih _ _ _ h with h1 | ⟨h2, h3⟩
      · rw [opts_find_append, opts_find_single] at h1
        cases hd : opts_find dst k with
        | some w => left; rw [hd] at h1; exact h1
        | none =>
          right
          refine ⟨rfl, ?_⟩
          rw [hd, oor_none] at h1
          by_cases hk : kv.1 = k
          · simpa [opts_find, alist_find, hk] using h1
          · rw [if_neg hk] at h1; cases h1
      · rw [opts_find_append, opts_find_single] at h2
        by_cases hk : kv.1 = k
        · rw [if_pos hk] at h2
          cases hd : opts_find dst k <;> rw [hd] at h2 <;> cases h2
        · right
          cases hd : opts_find dst k with
          | some w => rw [hd] at h2; cases h2
          | none =>
            refine ⟨rfl, ?_⟩
            simpa [opts_find, alist_find, hk] using h3
    | some v2 =>
      simp only [hf] at h
      by_cases he : v2 = kv.2
      · rw [if_pos he] at h
        rcases ih _ _ _ h with h1 | ⟨h2, h3⟩
        · exact Or.inl h1
        · right
          refine ⟨h2, ?_⟩
          by_cases hk : kv.1 = k
          · rw [hk] at hf; rw [hf] at h2; cases h2
          · simpa [opts_find, alist_find, hk] using h3
      · rw [if_neg he] at h
        exact Or.inl h

theorem apply_ext (src : Options) : ∀ (dst dst2 : Options),
    (∀ k v, opts_find dst k = some v → opts_find dst2 k = some v) →
    (∀ kv ∈ src, opts_find dst2 kv.1 = opts_find dst kv.1 ∨
      (opts_find dst kv.1 = none ∧ opts_find dst2 kv.1 = some kv.2)) →
    (apply_opts dst2 src).1 = (apply_opts dst src).1 ∧
    ∀ k, opts_find (apply_opts dst2 src).2 k =
      oor (opts_find dst2 k) (opts_find (apply_opts dst src).2 k) := by
  induction src with
  | nil =>
    intro dst dst2 hext hsrc
    refine ⟨rfl, fun k => ?_⟩
    show opts_find dst2 k = oor (opts_find dst2 k) (opts_find dst k)
    cases hd2 : opts_find dst2 k with
    | some v => rw [oor_some]
    | none =>
      rw [oor_none]
      cases hd : opts_find dst k with
      | none => rfl
      | some v => rw [hext k v hd] at hd2; cases hd2
  | cons kv rest ih =>
    intro dst dst2 hext hsrc
    have hkv := hsrc kv (List.mem_cons_self _ _)
    cases hd : opts_find dst kv.1 with
    | none =>
      rcases hkv with h1 | ⟨h2, h3⟩
      · -- both destinations lack the key: both runs insert kv
        rw [hd] at h1
        have hext2 : ∀ k v, opts_find (dst ++ [kv]) k = some v →
            opts_find (dst2 ++ [kv]) k = some v := by
          intro k v h
          rw [opts_find_append, opts_find_single] at h ⊢
          cases hfd : opts_find dst k with
          | some w =>
            rw [hfd, oor_some] at h
            rw [hext k w hfd, oor_some, h]
          | none =>
            rw [hfd, oor_none] at h
            by_cases hk : kv.1 = k
            · rw [if_pos hk] at h ⊢
              cases hfd2 : opts_find dst2 k with
              | none => rw [oor_none, h]
              | some w =>
                rw [← hk] at hfd2
                rw [h1] at hfd2; cases hfd2
            · rw [if_neg hk] at h; cases h
        have hsrc2 : ∀ kv2 ∈ rest, opts_find (dst2 ++ [kv]) kv2.1 =
            opts_find (dst ++ [kv]) kv2.1 ∨
            (opts_find (dst ++ [kv]) kv2.1 = none ∧
              opts_find (dst2 ++ [kv]) kv2.1 = some kv2.2) := by
          intro kv2 hmem
          rcases hsrc kv2 (List.mem_cons_of_mem _ hmem) with g1 | ⟨g2, g3⟩
          · left
            rw [opts_find_append, opts_find_append, g1]
          · by_cases hk : kv.1 = kv2.1
            · -- the inner premise contradicts h1 (dst2 lacks kv.1)
              rw [← hk] at g3
              rw [h1] at g3; cases g3
            · right
              constructor
              · rw [opts_find_append, opts_find_single, if_neg hk, g2]; rfl
              · rw [opts_find_append, g3, oor_some]
        obtain ⟨hflag, hfind⟩ := ih (dst ++ [kv]) (dst2 ++ [kv]) hext2 hsrc2
        constructor
        · show (apply_opts dst2 (kv :: rest)).1 = (apply_opts dst (kv :: rest)).1
          unfold apply_opts
          simp only [hd, h1]
          exact hflag
        · intro k
          show opts_find (apply_opts dst2 (kv :: rest)).2 k = _
          unfold apply_opts
          simp only [hd, h1]
          rw [hfind k, opts_find_append, opts_find_single]
          cases hd2 : opts_find dst2 k with
          | some w => rw [oor_some, oor_some]
          | none =>
            rw [oor_none, oor_none]
            by_cases hk : kv.1 = k
            · rw [if_pos hk]
              have hins : opts_find (dst ++ [kv]) k = some kv.2 := by
                rw [opts_find_append, opts_find_single, if_pos hk]
                cases hdk : opts_find dst k with
                | none => rw [oor_none]
                | some w =>
                  rw [hext k w hdk] at hd2; cases hd2
              rw [apply_opts_persist rest _ _ _ hins, oor_some]
            · rw [if_neg hk, oor_none]
      · -- dst lacks the key, dst2 already has it with the same value
        have hext2 : ∀ k v, opts_find (dst ++ [kv]) k = some v →
            opts_find dst2 k = some v := by
          intro k v h
          rw [opts_find_append, opts_find_single] at h
          cases hfd : opts_find dst k with
          | some w => rw [hfd, oor_some] at h; rw [← h]; exact hext k w hfd
          | none =>
            rw [hfd, oor_none] at h
            by_cases hk : kv.1 = k
            · rw [if_pos hk] at h
              rw [← hk, h3, h]
            · rw [if_neg hk] at h; cases h
        have hsrc2 : ∀ kv2 ∈ rest, opts_find dst2 kv2.1 =
            opts_find (dst ++ [kv]) kv2.1 ∨
            (opts_find (dst ++ [kv]) kv2.1 = none ∧
              opts_find dst2 kv2.1 = some kv2.2) := by
          intro kv2 hmem
          rcases hsrc kv2 (List.mem_cons_of_mem _ hmem) with g1 | ⟨g2, g3⟩
          · by_cases hk : kv.1 = kv2.1
            · rw [← hk] at g1
              rw [h3, hd] at g1; cases g1
            · left
              rw [opts_find_append, opts_find_single, if_neg hk, g1]
              cases hdk : opts_find dst kv2.1 with
              | some w => rw [oor_some]
              | none => rw [oor_none]
          · by_cases hk : kv.1 = kv2.1
            · left
              rw [opts_find_append, opts_find_single, if_pos hk, g2, oor_none]
              rw [← hk, h3]
            · right
              rw [opts_find_append, opts_find_single, if_neg hk, g2, oor_none]
              exact ⟨rfl, g3⟩
        obtain ⟨hflag, hfind⟩ := ih (dst ++ [kv]) dst2 hext2 hsrc2
        constructor
        · show (apply_opts dst2 (kv :: rest)).1 = _
          unfold apply_opts
          rw [hd, h3]
          dsimp only
          rw [if_pos rfl]
          exact hflag
        · intro k
          show opts_find (apply_opts dst2 (kv :: rest)).2 k = _
          unfold apply_opts
          rw [hd, h3]
          dsimp only
          rw [if_pos rfl]
          exact hfind k
    | some w =>
      have hd2 : opts_find dst2 kv.1 = some w := by
        rcases hkv with h1 | ⟨h2, _⟩
        · rw [h1, hd]
        · rw [h2] at hd; cases hd
      by_cases he : w = kv.2
      · have hsrc2 : ∀ kv2 ∈ rest, opts_find dst2 kv2.1 = opts_find dst kv2.1 ∨
            (opts_find dst kv2.1 = none ∧ opts_find dst2 kv2.1 = some kv2.2) :=
          fun kv2 hmem => hsrc kv2 (List.mem_cons_of_mem _ hmem)
        obtain ⟨hflag, hfind⟩ := ih dst dst2 hext hsrc2
        constructor
        · show (apply_opts dst2 (kv :: rest)).1 = _
          unfold apply_opts
          rw [hd, hd2]
          dsimp only
          rw [if_pos he, if_pos he]
          exact hflag
        · intro k
          show opts_find (apply_opts dst2 (kv :: rest)).2 k = _
          unfold apply_opts
          rw [hd, hd2]
          dsimp only
          rw [if_pos he, if_pos he]
          exact hfind k
      · constructor
        · show (apply_opts dst2 (kv :: rest)).1 = _
          unfold apply_opts
          rw [hd, hd2]
          dsimp only
          rw [if_neg he, if_neg he]
        · intro k
          show opts_find (apply_opts dst2 (kv :: rest)).2 k = _
          unfold apply_opts
          rw [hd, hd2]
          dsimp only
          rw [if_neg he, if_neg he]
          show opts_find dst2 k = oor (opts_find dst2 k) (opts_find dst k)
          cases hk2 : opts_find dst2 k with
          | some v => rw [oor_some]
          | none =>
            rw [oor_none]
            cases hk1 : opts_find dst k with
            | none => rfl
            | some v => rw [hext k v hk1] at hk2; cases hk2

/-- Two option maps bind no common key to different values. -/
def opts_compat (src1 src2 : Options) : Prop :=
  ∀ kv1 ∈ src1, ∀ kv2 ∈ src2, kv1.1 = kv2.1 → kv1.2 = kv2.2

instance (src1 src2 : Options) : Decidable (opts_compat src1 src2) := by
  unfold opts_compat
  infer_instance

theorem opts_compat_symm {src1 src2 : Options} (h : opts_compat src1 src2) :
    opts_compat src2 src1 :=
  fun kv2 h2 kv1 h1 hk => (h kv1 h1 kv2 h2 hk.symm).symm

theorem hsrc_of_run {src1 src2 : Options} (compat : opts_compat src1 src2)
    (dst : Options) : ∀ kv ∈ src2,
    opts_find (apply_opts dst src1).2 kv.1 = opts_find dst kv.1 ∨
      (opts_find dst kv.1 = none ∧ opts_find (apply_opts dst src1).2 kv.1 = some kv.2) := by
  intro kv hkv
  cases hr : opts_find (apply_opts dst src1).2 kv.1 with
  | none =>
    left
    cases hd : opts_find dst kv.1 with
    | none => rfl
    | some v => rw [apply_opts_persist src1 dst _ _ hd] at hr; cases hr
  | some v =>
    rcases apply_opts_origin src1 dst _ _ hr with h1 | ⟨h2, h3⟩
    · left; rw [h1]
    · right
      refine ⟨h2, ?_⟩
      obtain ⟨kv1, hmem1, hk1, hv1⟩ := opts_find_mem _ _ _ h3
      have := compat kv1 hmem1 kv hkv hk1
      rw [← hv1, this]

theorem run_run_agree {src1 src2 : Options} (compat : opts_compat src1 src2)
    (dst : Options) (k : String) (v1 v2 : ConstV)
    (h1 : opts_find (apply_opts dst src1).2 k = some v1)
    (h2 : opts_find (apply_opts dst src2).2 k = some v2) : v1 = v2 := by
  rcases apply_opts_origin src1 dst _ _ h1 with g1 | ⟨g1n, g1s⟩
  · rcases apply_opts_origin src2 dst _ _ h2 with g2 | ⟨g2n, g2s⟩
    · rw [g1] at g2; exact Option.some.inj g2
    · rw [g1] at g2n; cases g2n
  · rcases apply_opts_origin src2 dst _ _ h2 with g2 | ⟨g2n, g2s⟩
    · rw [g2] at g1n; cases g1n
    · obtain ⟨kv1, hmem1, hk1, hv1⟩ := opts_find_mem _ _ _ g1s
      obtain ⟨kv2, hmem2, hk2, hv2⟩ := opts_find_mem _ _ _ g2s
      have := compat kv1 hmem1 kv2 hmem2 (hk1.trans hk2.symm)
      rw [← hv1, ← hv2, this]

theorem apply_success_mem (src : Options) : ∀ dst : Options,
    (apply_opts dst src).1 = true →
    ∀ kv ∈ src, opts_find (apply_opts dst src).2 kv.1 = some kv.2 := by
  induction src with
  | nil =>
    intro dst hs kv hkv
    exact absurd hkv (List.not_mem_nil kv)
  | cons kv0 rest ih =>
    intro dst hs kv hkv
    unfold apply_opts at hs ⊢
    cases hf : opts_find dst kv0.1 with
    | none =>
      rw [hf] at hs
      rcases List.mem_cons.mp hkv with rfl | hmem
      · exact apply_opts_persist rest _ _ _
          (by rw [opts_find_append, opts_find_single, if_pos rfl]
              rw [hf, oor_none])
      · exact ih _ hs kv hmem
    | some v2 =>
      rw [hf] at hs
      dsimp only at hs ⊢
      by_cases he : v2 = kv0.2
      · rw [if_pos he] at hs ⊢
        rcases List.mem_cons.mp hkv with rfl | hmem
        · subst he
          exact apply_opts_persist rest _ _ _ hf
        · exact ih _ hs kv hmem
      · rw [if_neg he] at hs
        cases hs

theorem apply_all_present (src : Options) : ∀ dst : Options,
    (∀ kv ∈ src, opts_find dst kv.1 = some kv.2) →
    apply_opts dst src = (true, dst) := by
  induction src with
  | nil => intro dst _; rfl
  | cons kv rest ih =>
    intro dst h
    have hkv := h kv (List.mem_cons_self _ _)
    unfold apply_opts
    rw [hkv]
    dsimp only
    rw [if_pos rfl]
    exact ih dst (fun kv2 hmem => h kv2 (List.mem_cons_of_mem _ hmem))

/-- C8: `apply_opts` is commutative for non-conflicting merges — when `src1`
and `src2` bind no common key to different values, applying them in either
order to the same destination yields the same success flag for each source
and extensionally the same final map — and idempotent for equal merges: a
successful `apply_opts dst src` followed by the same `src` succeeds and
leaves the destination unchanged. -/
theorem apply_opts_comm_idem :
    (∀ dst src1 src2 : Options, opts_compat src1 src2 →
      (apply_opts (apply_opts dst src1).2 src2).1 = (apply_opts dst src2).1 ∧
      (apply_opts (apply_opts dst src2).2 src1).1 = (apply_opts dst src1).1 ∧
      ∀ k, opts_find (apply_opts (apply_opts dst src1).2 src2).2 k =
        opts_find (apply_opts (apply_opts dst src2).2 src1).2 k) ∧
    (∀ dst src : Options, (apply_opts dst src).1 = true →
      apply_opts (apply_opts dst src).2 src = (true, (apply_opts dst src).2)) := by
  constructor
  · intro dst src1 src2 compat
    have hA := apply_ext src2 dst (apply_opts dst src1).2
      (fun k v h => apply_opts_persist src1 dst k v h) (hsrc_of_run compat dst)
    have hB := apply_ext src1 dst (apply_opts dst src2).2
      (fun k v h => apply_opts_persist src2 dst k v h)
      (hsrc_of_run (opts_compat_symm compat) dst)
    refine ⟨hA.1, hB.1, fun k => ?_⟩
    rw [hA.2 k, hB.2 k]
    cases h1 : opts_find (apply_opts dst src1).2 k with
    | none =>
      rw [oor_none]
      cases h2 : opts_find (apply_opts dst src2).2 k with
      | none => rw [oor_none]
      | some v2 => rw [oor_some]
    | some v1 =>
      rw [oor_some]
      cases h2 : opts_find (apply_opts dst src2).2 k with
      | none => rw [oor_none]
      | some v2 =>
        rw [oor_some]
        rw [run_run_agree compat dst k v1 v2 h1 h2]
  · intro dst src h
    exact apply_all_present src _ (apply_success_mem src dst h)

/-- The per-read-port flag invariant: an `emu_sync` port has none of the
other emulation flags set. -/
def ELem (r : RdPortConfig) : Prop :=
  r.emu_sync = true →
    r.emu_en = false ∧ r.emu_arst = false ∧ r.emu_srst = false ∧
      r.emu_init = false ∧ r.emu_srst_en_prio = false

/-- The C9 invariant on a candidate. -/
def RdInv (cfg : MemConfig) : Prop := ∀ r ∈ cfg.rd_ports, ELem r

/-- The number of bound write ports of a candidate using port group `i`. -/
def wr_count (cfg : MemConfig) (i : Nat) : Nat :=
  cfg.wr_ports.countP (fun p => decide (p.port_def = i))

/-- The number of names port group `i` of the candidate's RAM definition
declares. -/
def group_size (lib : Library) (cfg : MemConfig) (i : Nat) : Nat :=
  (((lib.getD cfg.ram_def default).ports.getD i default).val.names).length

/-- The amended C2 invariant on a candidate: write-port usage of every port
group is bounded by the group's name count. -/
def WrBound (lib : Library) (cfg : MemConfig) : Prop :=
  ∀ i, wr_count cfg i ≤ group_size lib cfg i

/-- The conjunction of the candidate invariants carried through every phase. -/
def Inv (lib : Library) (cfg : MemConfig) : Prop := RdInv cfg ∧ WrBound lib cfg

/-- The candidate invariants hold across a candidate set. -/
def InvAll (lib : Library) (cfgs : MemConfigs) : Prop := ∀ c ∈ cfgs, Inv lib c

theorem countP_set_eq {α : Type} [Inhabited α] (p : α → Bool) :
    ∀ (l : List α) (n : Nat) (x : α), p x = p (l.getD n default) →
      (l.set n x).countP p = l.countP p := by
  intro l
  induction l with
  | nil => intro n x _; rfl
  | cons a t ih =>
    intro n x h
    cases n with
    | zero =>
      rw [List.set_cons_zero, List.countP_cons, List.countP_cons, h]
      rfl
    | succ m =>
      rw [List.set_cons_succ, List.countP_cons, List.countP_cons, ih m x h]

theorem elem_of_sync_false {r : RdPortConfig} (h : r.emu_sync = false) : ELem r := by
  intro hs
  rw [h] at hs
  cases hs

theorem elem_default : ELem (default : RdPortConfig) :=
  elem_of_sync_false rfl

theorem elem_getD {cfg : MemConfig} (h : RdInv cfg) (n : Nat) :
    ELem (cfg.rd_ports.getD n default) := by
  by_cases hl : n < cfg.rd_ports.length
  · rw [List.getD_eq_getElem _ _ hl]
    exact h _ (List.getElem_mem hl)
  · have hge : cfg.rd_ports.length ≤ n := Nat.le_of_not_lt hl
    rw [List.getD_eq_getElem?_getD, List.getElem?_eq_none hge]
    exact elem_default

theorem rdinv_set {cfg : MemConfig} (h : RdInv cfg) {x : RdPortConfig} (hx : ELem x)
    (n : Nat) : ∀ r ∈ cfg.rd_ports.set n x, ELem r := by
  intro r hr
  rcases List.mem_or_eq_of_mem_set hr with hmem | rfl
  · exact h r hmem
  · exact hx

theorem rdinv_append {cfg : MemConfig} (h : RdInv cfg) {x : RdPortConfig} (hx : ELem x) :
    ∀ r ∈ cfg.rd_ports ++ [x], ELem r := by
  intro r hr
  rcases List.mem_append.mp hr with hmem | hmem
  · exact h r hmem
  · rw [List.mem_singleton] at hmem
    exact hmem ▸ hx

theorem inv_of_fields (lib : Library) {c1 c2 : MemConfig} (hr : c2.ram_def = c1.ram_def)
    (hw : c2.wr_ports = c1.wr_ports) (hd : c2.rd_ports = c1.rd_ports) :
    Inv lib c1 → Inv lib c2 := by
  rintro ⟨h1, h2⟩
  constructor
  · intro r hrm
    exact h1 r (hd ▸ hrm)
  · intro i
    unfold wr_count group_size
    rw [hr, hw]
    exact h2 i

theorem apply_clock_fields (cfg : MemConfig) (cdef : ClockDef) (clk : Nat) (pol : Bool) :
    (apply_clock cfg cdef clk pol).2.ram_def = cfg.ram_def ∧
    (apply_clock cfg cdef clk pol).2.wr_ports = cfg.wr_ports ∧
    (apply_clock cfg cdef clk pol).2.rd_ports = cfg.rd_ports := by
  unfold apply_clock
  split
  · exact ⟨rfl, rfl, rfl⟩
  · split
    · split
      · exact ⟨rfl, rfl, rfl⟩
      · exact ⟨rfl, rfl, rfl⟩
    · split
      · exact ⟨rfl, rfl, rfl⟩
      · exact ⟨rfl, rfl, rfl⟩

theorem apply_wrport_opts_fields {T : Type} (cfg : MemConfig) (pidx : Nat)
    (cap : Capability T) :
    (apply_wrport_opts cfg pidx cap).2.ram_def = cfg.ram_def ∧
    (apply_wrport_opts cfg pidx cap).2.rd_ports = cfg.rd_ports ∧
    ∀ i, wr_count (apply_wrport_opts cfg pidx cap).2 i = wr_count cfg i := by
  unfold apply_wrport_opts
  dsimp only
  cases hr : (apply_opts cfg.opts cap.opts).1 with
  | false =>
    simp only [Bool.not_false, if_true]
    exact ⟨trivial, trivial, fun i => rfl⟩
  | true =>
    simp only [Bool.not_true, Bool.false_eq_true, if_false]
    refine ⟨trivial, trivial, fun i => ?_⟩
    unfold wr_count
    exact countP_set_eq _ _ _ _ rfl

theorem apply_wrport_opts_inv {T : Type} (lib : Library) (cfg : MemConfig) (pidx : Nat)
    (cap : Capability T) (h : Inv lib cfg) : Inv lib (apply_wrport_opts cfg pidx cap).2 := by
  obtain ⟨hram, hrd, hcnt⟩ := apply_wrport_opts_fields cfg pidx cap
  refine ⟨?_, ?_⟩
  · intro r hr
    exact h.1 r (hrd ▸ hr)
  · intro i
    rw [hcnt i]
    unfold group_size
    rw [hram]
    exact h.2 i

theorem apply_rdport_opts_inv {T : Type} (lib : Library) (cfg : MemConfig) (pidx : Nat)
    (cap : Capability T) (h : Inv lib cfg) : Inv lib (apply_rdport_opts cfg pidx cap).2 := by
  unfold apply_rdport_opts
  dsimp only
  cases hw : (cfg.rd_ports.getD pidx default).wr_port with
  | some w => exact apply_wrport_opts_inv lib cfg _ cap h
  | none =>
    cases hr : (apply_opts cfg.opts cap.opts).1 with
    | false =>
      simp only [Bool.not_false, if_true]
      exact inv_of_fields lib rfl rfl rfl h
    | true =>
      simp only [Bool.not_true, Bool.false_eq_true, if_false]
      constructor
      · intro r hr2
        refine rdinv_set h.1 ?_ pidx r hr2
        have he := elem_getD h.1 pidx
        intro hs
        exact he hs
      · intro i
        unfold wr_count group_size
        exact h.2 i

theorem apply_rdport_opts_sync {T : Type} (cfg : MemConfig) (pidx : Nat)
    (cap : Capability T) :
    ((apply_rdport_opts cfg pidx cap).2.rd_ports.getD pidx default).emu_sync =
      (cfg.rd_ports.getD pidx default).emu_sync := by
  unfold apply_rdport_opts
  dsimp only
  cases hw : (cfg.rd_ports.getD pidx default).wr_port with
  | some w =>
    obtain ⟨_, hrd, _⟩ := apply_wrport_opts_fields cfg w cap
    rw [hrd]
  | none =>
    cases hr : (apply_opts cfg.opts cap.opts).1 with
    | false =>
      simp only [Bool.not_false, if_true]
    | true =>
      simp only [Bool.not_true, Bool.false_eq_true, if_false]
      by_cases hl : pidx < cfg.rd_ports.length
      · rw [List.getD_eq_getElem _ _ (by simpa using hl), List.getElem_set_self]
      · have hge : cfg.rd_ports.length ≤ pidx := Nat.le_of_not_lt hl
        rw [List.getD_eq_getElem?_getD, List.getElem?_eq_none (by simpa using hge),
          List.getD_eq_getElem?_getD, List.getElem?_eq_none hge]

theorem apply_rstval_flags (pcfg : RdPortConfig) (rdef : ResetValDef) (val : List St) :
    (apply_rstval pcfg rdef val).2.emu_sync = pcfg.emu_sync ∧
    (apply_rstval pcfg rdef val).2.emu_en = pcfg.emu_en ∧
    (apply_rstval pcfg rdef val).2.emu_arst = pcfg.emu_arst ∧
    (apply_rstval pcfg rdef val).2.emu_srst = pcfg.emu_srst ∧
    (apply_rstval pcfg rdef val).2.emu_init = pcfg.emu_init ∧
    (apply_rstval pcfg rdef val).2.emu_srst_en_prio = pcfg.emu_srst_en_prio := by
  unfold apply_rstval
  split
  · exact ⟨rfl, rfl, rfl, rfl, rfl, rfl⟩
  · exact ⟨rfl, rfl, rfl, rfl, rfl, rfl⟩
  · split
    · exact ⟨rfl, rfl, rfl, rfl, rfl, rfl⟩
    · exact ⟨rfl, rfl, rfl, rfl, rfl, rfl⟩

theorem invAll_flatMap {lib : Library} {f : MemConfig → MemConfigs} {cfgs : MemConfigs}
    (hf : ∀ c, Inv lib c → ∀ c2 ∈ f c, Inv lib c2) (h : InvAll lib cfgs) :
    InvAll lib (cfgs.flatMap f) := by
  intro c2 hc2
  rw [List.mem_flatMap] at hc2
  obtain ⟨c, hc, hc2m⟩ := hc2
  exact hf c (h c hc) c2 hc2m

theorem invAll_foldl {lib : Library} {g : MemConfigs → Nat → MemConfigs} {l : List Nat}
    (hg : ∀ cs i, InvAll lib cs → InvAll lib (g cs i)) :
    ∀ cs, InvAll lib cs → InvAll lib (l.foldl g cs) := by
  induction l with
  | nil => intro cs h; exact h
  | cons i rest ih => intro cs h; exact ih _ (hg cs i h)

theorem enum_from_getD {α : Type} [Inhabited α] :
    ∀ (l : List α) (n : Nat) (ig : Nat × α), ig ∈ enum_from n l →
      n ≤ ig.1 ∧ l.getD (ig.1 - n) default = ig.2 := by
  intro l
  induction l with
  | nil => intro n ig h; exact absurd h (List.not_mem_nil ig)
  | cons x xs ih =>
    intro n ig h
    rcases List.mem_cons.mp h with rfl | hmem
    · exact ⟨Nat.le_refl n, by rw [Nat.sub_self]; rfl⟩
    · obtain ⟨hle, hg⟩ := ih (n + 1) ig hmem
      refine ⟨Nat.le_of_succ_le hle, ?_⟩
      have hs : ig.1 - n = (ig.1 - (n + 1)) + 1 := by omega
      rw [hs, List.getD_cons_succ]
      exact hg

theorem invAll_init_cfgs (lib : Library) : InvAll lib (init_cfgs lib) := by
  intro c hc
  unfold init_cfgs at hc
  rw [List.mem_map] at hc
  obtain ⟨i, _, rfl⟩ := hc
  constructor
  · intro r hr
    exact absurd hr (List.not_mem_nil r)
  · intro j
    exact Nat.zero_le _

theorem invAll_ram_kind (lib : Library) (kind : RamKind) (cfgs : MemConfigs)
    (h : InvAll lib cfgs) : InvAll lib (handle_ram_kind lib kind cfgs) := by
  unfold handle_ram_kind
  split
  · exact h
  · intro c hc
    exact h c (List.mem_of_mem_filter hc)

theorem invAll_ram_style (lib : Library) (style : String) (cfgs : MemConfigs)
    (h : InvAll lib cfgs) : InvAll lib (handle_ram_style lib style cfgs) := by
  unfold handle_ram_style
  split
  · exact h
  · refine invAll_flatMap ?_ h
    intro c hcInv c2 hc2
    rw [List.mem_filterMap] at hc2
    obtain ⟨sdef, _, hsome⟩ := hc2
    split at hsome
    · cases hsome
    · dsimp only at hsome
      split at hsome
      · injection hsome with he
        subst he
        exact inv_of_fields lib rfl rfl rfl hcInv
      · cases hsome

theorem invAll_handle_init (lib : Library) (mem : Mem) (cfgs : MemConfigs)
    (h : InvAll lib cfgs) : InvAll lib (handle_init lib mem cfgs) := by
  unfold handle_init
  dsimp only
  split
  · exact h
  · refine invAll_flatMap ?_ h
    intro c hcInv c2 hc2
    rw [List.mem_filterMap] at hc2
    obtain ⟨idef, _, hsome⟩ := hc2
    split at hsome
    · split at hsome
      · cases hsome
      · split at hsome
        · injection hsome with he
          subst he
          exact inv_of_fields lib rfl rfl rfl hcInv
        · cases hsome
    · split at hsome
      · cases hsome
      · split at hsome
        · injection hsome with he
          subst he
          exact inv_of_fields lib rfl rfl rfl hcInv
        · cases hsome

theorem wr_group_inv (lib : Library) (p : WrPort) (c : MemConfig) (hc : Inv lib c)
    (i : Nat) (gdef : Capability PortGroupDef)
    (hgd : ((lib.getD c.ram_def default).ports).getD i default = gdef) :
    ∀ c2 ∈ wr_group_cfgs p c i gdef, Inv lib c2 := by
  intro c2 hc2
  unfold wr_group_cfgs at hc2
  split at hc2
  · exact absurd hc2 (List.not_mem_nil c2)
  · split at hc2
    · exact absurd hc2 (List.not_mem_nil c2)
    · rename_i hkind hcnt
      dsimp only at hc2
      split at hc2
      · exact absurd hc2 (List.not_mem_nil c2)
      · rw [List.mem_filterMap] at hc2
        obtain ⟨cdef, _, hsome⟩ := hc2
        unfold wr_clock_cfg at hsome
        dsimp only at hsome
        split at hsome
        · cases hsome
        · split at hsome
          · cases hsome
          · split at hsome
            · cases hsome
            · injection hsome with he
              subst he
              obtain ⟨hcr, hcw, hcd⟩ := apply_clock_fields
                { c with opts := (apply_opts (apply_opts c.opts gdef.opts).2 cdef.opts).2 }
                cdef.val p.clk p.clk_polarity
              constructor
              · intro r hr
                rw [hcd] at hr
                exact hc.1 r hr
              · intro j
                unfold wr_count
                rw [List.countP_append, hcw]
                unfold group_size
                rw [hcr]
                show c.wr_ports.countP _ + List.countP _ [_] ≤
                  ((lib.getD c.ram_def default).ports.getD j default).val.names.length
                by_cases hij : i = j
                · subst hij
                  rw [hgd]
                  have hlt : c.wr_ports.countP (fun o => decide (o.port_def = i)) <
                      gdef.val.names.length := Nat.lt_of_not_le hcnt
                  have hone : List.countP (fun o => decide (o.port_def = i))
                      [(⟨none, i, (apply_opts [] cdef.portopts).2, []⟩ : WrPortConfig)] = 1 := by
                    rw [List.countP_cons, List.countP_nil]
                    simp
                  rw [hone]
                  omega
                · have hzero : List.countP (fun o => decide (o.port_def = j))
                      [(⟨none, i, (apply_opts [] cdef.portopts).2, []⟩ : WrPortConfig)] = 0 := by
                    rw [List.countP_cons, List.countP_nil]
                    simp [hij]
                  rw [hzero]
                  exact hc.2 j

theorem invAll_wr_ports (lib : Library) :
    ∀ (ports : List WrPort) (cfgs : MemConfigs), InvAll lib cfgs →
      InvAll lib (handle_wr_ports lib ports cfgs) := by
  intro ports
  induction ports with
  | nil => intro cfgs h; exact h
  | cons p rest ih =>
    intro cfgs h
    unfold handle_wr_ports
    split
    · intro c hc
      exact absurd hc (List.not_mem_nil c)
    · refine ih _ (invAll_flatMap ?_ h)
      intro c hcInv c2 hc2
      unfold wr_port_cfg_gen at hc2
      rw [List.mem_flatMap] at hc2
      obtain ⟨ig, hig, hc2m⟩ := hc2
      obtain ⟨_, hgd⟩ := enum_from_getD _ 0 ig hig
      rw [Nat.sub_zero] at hgd
      exact wr_group_inv lib p c hcInv ig.1 ig.2 hgd c2 hc2m

theorem elem_of_flags_eq {r s : RdPortConfig} (h : ELem s)
    (hsy : r.emu_sync = s.emu_sync) (h1 : r.emu_en = s.emu_en)
    (h2 : r.emu_arst = s.emu_arst) (h3 : r.emu_srst = s.emu_srst)
    (h4 : r.emu_init = s.emu_init) (h5 : r.emu_srst_en_prio = s.emu_srst_en_prio) :
    ELem r := by
  intro hs
  rw [hsy] at hs
  obtain ⟨a, b, c, d, e⟩ := h hs
  exact ⟨h1.trans a, h2.trans b, h3.trans c, h4.trans d, h5.trans e⟩

theorem elem_flags_false {r : RdPortConfig} (h1 : r.emu_en = false)
    (h2 : r.emu_arst = false) (h3 : r.emu_srst = false) (h4 : r.emu_init = false)
    (h5 : r.emu_srst_en_prio = false) : ELem r :=
  fun _ => ⟨h1, h2, h3, h4, h5⟩

theorem inv_rd_append (lib : Library) (cfg : MemConfig) (h : Inv lib cfg)
    (x : RdPortConfig) (hx : ELem x) :
    Inv lib { cfg with rd_ports := cfg.rd_ports ++ [x] } := by
  constructor
  · exact rdinv_append h.1 hx
  · intro i
    exact h.2 i

theorem inv_rd_set (lib : Library) (cfg : MemConfig) (h : Inv lib cfg)
    (x : RdPortConfig) (hx : ELem x) (n : Nat) :
    Inv lib { cfg with rd_ports := cfg.rd_ports.set n x } := by
  constructor
  · exact rdinv_set h.1 hx n
  · intro i
    exact h.2 i

theorem inv_wr_set_keep_portdef (lib : Library) {cfg : MemConfig} (h : Inv lib cfg)
    (n : Nat) {x : WrPortConfig}
    (hx : x.port_def = (cfg.wr_ports.getD n default).port_def) :
    Inv lib { cfg with wr_ports := cfg.wr_ports.set n x } := by
  constructor
  · exact h.1
  · intro i
    unfold wr_count
    show (cfg.wr_ports.set n x).countP _ ≤ _
    rw [countP_set_eq _ _ _ _ (by simp [hx])]
    exact h.2 i

theorem rd_clock_step_some (port : RdPort) (cfg2 : MemConfig) (pcfg2 : RdPortConfig)
    (cdef : Capability ClockDef) (out : MemConfig × RdPortConfig)
    (h : rd_clock_step port cfg2 pcfg2 cdef = some out) :
    out.1.ram_def = cfg2.ram_def ∧ out.1.wr_ports = cfg2.wr_ports ∧
    out.1.rd_ports = cfg2.rd_ports ∧ out.2.emu_sync = pcfg2.emu_sync ∧
    out.2.emu_en = pcfg2.emu_en ∧ out.2.emu_arst = pcfg2.emu_arst ∧
    out.2.emu_srst = pcfg2.emu_srst ∧ out.2.emu_init = pcfg2.emu_init ∧
    out.2.emu_srst_en_prio = pcfg2.emu_srst_en_prio := by
  unfold rd_clock_step at h
  dsimp only at h
  split at h
  · cases h
  · split at h
    · cases h
    · split at h
      · cases h
      · injection h with he
        subst he
        obtain ⟨h1, h2, h3⟩ := apply_clock_fields _ cdef.val port.clk port.clk_polarity
        exact ⟨h1, h2, h3, rfl, rfl, rfl, rfl, rfl, rfl⟩

theorem rd_en_step_some (port : RdPort) (cfg3 : MemConfig) (pcfg3 : RdPortConfig)
    (endef : Capability RdEnKind) (c2 : MemConfig)
    (h : rd_en_step port cfg3 pcfg3 endef = some c2) :
    ∃ pcfg4 : RdPortConfig, c2.ram_def = cfg3.ram_def ∧ c2.wr_ports = cfg3.wr_ports ∧
      c2.rd_ports = cfg3.rd_ports ++ [pcfg4] ∧ pcfg4.emu_sync = pcfg3.emu_sync ∧
      pcfg4.emu_arst = pcfg3.emu_arst ∧ pcfg4.emu_srst = pcfg3.emu_srst ∧
      pcfg4.emu_init = pcfg3.emu_init ∧
      pcfg4.emu_srst_en_prio = pcfg3.emu_srst_en_prio := by
  unfold rd_en_step at h
  dsimp only at h
  split at h
  · cases h
  · split at h
    · cases h
    · split at h
      · injection h with he
        subst he
        exact ⟨_, rfl, rfl, rfl, rfl, rfl, rfl, rfl, rfl⟩
      · injection h with he
        subst he
        exact ⟨_, rfl, rfl, rfl, rfl, rfl, rfl, rfl, rfl⟩

theorem rd_unshared_sync_inv (lib : Library) (port : RdPort) (cfg2 : MemConfig)
    (pcfg2 : RdPortConfig) (gdef : Capability PortGroupDef) (hinv : Inv lib cfg2)
    (hsync : pcfg2.emu_sync = false) :
    ∀ c2 ∈ rd_unshared_sync port cfg2 pcfg2 gdef, Inv lib c2 := by
  intro c2 hc2
  unfold rd_unshared_sync at hc2
  rw [List.mem_flatMap] at hc2
  obtain ⟨cdef, _, hmem⟩ := hc2
  cases hstep : rd_clock_step port cfg2 pcfg2 cdef with
  | none =>
    rw [hstep] at hmem
    exact absurd hmem (List.not_mem_nil c2)
  | some out =>
    rw [hstep] at hmem
    rw [List.mem_filterMap] at hmem
    obtain ⟨endef, _, hsome⟩ := hmem
    obtain ⟨hr1, hw1, hd1, hs1, _, _, _, _, _⟩ :=
      rd_clock_step_some port cfg2 pcfg2 cdef out hstep
    obtain ⟨pcfg4, hr2, hw2, hd2, hs2, _, _, _, _⟩ :=
      rd_en_step_some port out.1 out.2 endef c2 hsome
    constructor
    · intro r hrm
      rw [hd2, hd1] at hrm
      rcases List.mem_append.mp hrm with hm | hm
      · exact hinv.1 r hm
      · rw [List.mem_singleton] at hm
        subst hm
        exact elem_of_sync_false (by rw [hs2, hs1, hsync])
    · intro i
      unfold wr_count group_size
      rw [hr2, hr1, hw2, hw1]
      exact hinv.2 i

theorem rd_unshared_group_inv (lib : Library) (port : RdPort) (c : MemConfig)
    (hc : Inv lib c) (i : Nat) (gdef : Capability PortGroupDef) :
    ∀ c2 ∈ rd_unshared_group port c i gdef, Inv lib c2 := by
  intro c2 hc2
  unfold rd_unshared_group at hc2
  split at hc2
  · exact absurd hc2 (List.not_mem_nil c2)
  · split at hc2
    · exact absurd hc2 (List.not_mem_nil c2)
    · split at hc2
      · exact absurd hc2 (List.not_mem_nil c2)
      · dsimp only at hc2
        split at hc2
        · exact absurd hc2 (List.not_mem_nil c2)
        · split at hc2
          · refine rd_unshared_sync_inv lib port _ _ gdef ?_ ?_ c2 hc2
            · exact inv_of_fields lib rfl rfl rfl hc
            · rfl
          · rw [List.mem_singleton] at hc2
            subst hc2
            refine inv_rd_append lib _ (inv_of_fields lib rfl rfl rfl hc) _ ?_
            exact elem_flags_false rfl rfl rfl rfl rfl

theorem srsw_rden_one_inv (lib : Library) (env : Env) (port : RdPort) (wpidx pidx : Nat)
    (cfg2 : MemConfig) (pcfg2 : RdPortConfig) (endef : Capability RdEnKind)
    (hinv : Inv lib cfg2) (hsync : pcfg2.emu_sync = false) :
    ∀ c2 : MemConfig, srsw_rden_one env port wpidx pidx cfg2 pcfg2 endef = some c2 →
      Inv lib c2 := by
  intro c2 h
  unfold srsw_rden_one at h
  dsimp only at h
  split at h
  · cases h
  · split at h
    · injection h with he
      subst he
      exact inv_rd_append lib _ (apply_wrport_opts_inv lib cfg2 wpidx endef hinv)
        _ (elem_of_sync_false (by rw [show (_ : RdPortConfig).emu_sync = pcfg2.emu_sync from rfl, hsync]))
    · injection h with he
      subst he
      exact inv_rd_append lib _ (apply_wrport_opts_inv lib cfg2 wpidx endef hinv)
        _ (elem_of_sync_false hsync)
    · injection h with he
      subst he
      exact inv_rd_append lib _ (apply_wrport_opts_inv lib cfg2 wpidx endef hinv)
        _ (elem_of_sync_false (by rw [show (_ : RdPortConfig).emu_sync = pcfg2.emu_sync from rfl, hsync]))
    · split at h
      · cases h
      · injection h with he
        subst he
        exact inv_rd_append lib _ (apply_wrport_opts_inv lib cfg2 wpidx endef hinv)
          _ (elem_of_sync_false hsync)

theorem rd_shared_one_inv (lib : Library) (env : Env) (port : RdPort) (pidx : Nat)
    (c : MemConfig) (hc : Inv lib c) (wpidx : Nat) (wport : WrPort) :
    ∀ c2 ∈ rd_shared_one lib env port pidx c wpidx wport, Inv lib c2 := by
  intro c2 hc2
  unfold rd_shared_one at hc2
  dsimp only at hc2
  split at hc2
  · exact absurd hc2 (List.not_mem_nil c2)
  · split at hc2
    · exact absurd hc2 (List.not_mem_nil c2)
    · split at hc2
      · exact absurd hc2 (List.not_mem_nil c2)
      · split at hc2
        · exact absurd hc2 (List.not_mem_nil c2)
        · split at hc2
          · rename_i hsrsw
            rw [List.mem_filterMap] at hc2
            obtain ⟨endef, _, hsome⟩ := hc2
            refine srsw_rden_one_inv lib env port wpidx pidx _ _ endef ?_ ?_ c2 hsome
            · exact inv_wr_set_keep_portdef lib hc wpidx rfl
            · show (port.clk_enable && _) = false
              rw [hsrsw]
              simp
          · rw [List.mem_singleton] at hc2
            subst hc2
            have h1 : Inv lib { c with wr_ports := c.wr_ports.set wpidx { c.wr_ports.getD wpidx default with rd_port := some pidx } } := by
              refine inv_wr_set_keep_portdef lib hc wpidx ?_
              rfl
            refine inv_rd_append lib _ h1 _ ?_
            exact elem_flags_false rfl rfl rfl rfl rfl

theorem invAll_rd_ports (lib : Library) (env : Env) (mem : Mem) (cfgs : MemConfigs)
    (h : InvAll lib cfgs) : InvAll lib (handle_rd_ports lib env mem cfgs) := by
  unfold handle_rd_ports
  refine invAll_foldl ?_ cfgs h
  intro cs pidx hcs
  refine invAll_flatMap ?_ hcs
  intro c hcInv c2 hc2
  unfold rd_port_cfg_gen at hc2
  rw [List.mem_append] at hc2
  rcases hc2 with hun | hsh
  · rw [List.mem_flatMap] at hun
    obtain ⟨ig, _, hm⟩ := hun
    exact rd_unshared_group_inv lib _ c hcInv ig.1 ig.2 c2 hm
  · rw [List.mem_flatMap] at hsh
    obtain ⟨iw, _, hm⟩ := hsh
    exact rd_shared_one_inv lib env _ pidx c hcInv iw.1 iw.2 c2 hm

theorem mem_toList {α : Type} {x : α} {o : Option α} (h : x ∈ o.toList) : o = some x := by
  cases o with
  | none => exact absurd h (List.not_mem_nil x)
  | some y =>
    have hxy : x = y := List.mem_singleton.mp h
    rw [hxy]

theorem caps_free_fold_mem {β : Type} (f : β → MemConfigs × Bool) (caps : List β)
    (P : MemConfig → Prop) (hf : ∀ cap, ∀ c2 ∈ (f cap).1, P c2) :
    ∀ c2 ∈ (caps_free_fold f caps).2, P c2 := by
  intro c2 hc2
  rw [caps_free_fold_eq] at hc2
  dsimp only at hc2
  rw [List.mem_flatMap] at hc2
  obtain ⟨cap, _, hm⟩ := hc2
  exact hf cap c2 hm

theorem getD_set_emu_sync (l : List RdPortConfig) (n : Nat) (x : RdPortConfig)
    (hx : x.emu_sync = false) (_hin : (l.getD n default).emu_sync = false) :
    ((l.set n x).getD n default).emu_sync = false := by
  by_cases hl : n < l.length
  · rw [List.getD_eq_getElem _ _ (by simpa using hl), List.getElem_set_self]
    exact hx
  · have hge := Nat.le_of_not_lt hl
    rw [List.getD_eq_getElem?_getD, List.getElem?_eq_none (by simpa using hge)]
    rfl

theorem trans_cap_step_inv (lib : Library) (t : Bool) (rpidx wpidx : Nat) (c : MemConfig)
    (wpcfg : WrPortConfig) (rpdef : Capability PortGroupDef) (hc : Inv lib c) :
    ∀ tdef : Capability WrTransDef,
      ∀ c2 ∈ (trans_cap_step t rpidx wpidx c wpcfg rpdef tdef).1, Inv lib c2 := by
  intro tdef c2 hm
  rw [trans_cap_step_fst] at hm
  split at hm
  · have hsome := mem_toList hm
    split at hsome
    · injection hsome with he
      subst he
      exact hc
    · dsimp only at hsome
      split at hsome
      · injection hsome with he
        subst he
        exact apply_wrport_opts_inv lib c wpidx tdef hc
      · cases hsome
  · exact absurd hm (List.not_mem_nil c2)

theorem trans_cfg_inv (lib : Library) (t : Bool) (rpidx wpidx : Nat) (c : MemConfig)
    (hc : Inv lib c) : ∀ c2 ∈ handle_trans_cfg lib t rpidx wpidx c, Inv lib c2 := by
  intro c2 hc2
  unfold handle_trans_cfg at hc2
  dsimp only at hc2
  have helem : ELem { c.rd_ports.getD rpidx default with emu_trans := (c.rd_ports.getD rpidx default).emu_trans ++ [wpidx] } :=
    elem_of_flags_eq (elem_getD hc.1 rpidx) rfl rfl rfl rfl rfl rfl
  split at hc2
  · split at hc2
    · rw [List.mem_singleton] at hc2
      subst hc2
      exact inv_rd_set lib _ hc _ helem rpidx
    · rw [List.mem_singleton] at hc2
      subst hc2
      exact hc
  · split at hc2
    · rw [List.mem_append] at hc2
      rcases hc2 with hm | hm
      · exact caps_free_fold_mem _ _ (Inv lib)
          (trans_cap_step_inv lib t rpidx wpidx c _ _ hc) c2 hm
      · rw [List.mem_singleton] at hm
        subst hm
        exact inv_rd_set lib _ hc _ helem rpidx
    · exact caps_free_fold_mem _ _ (Inv lib)
        (trans_cap_step_inv lib t rpidx wpidx c _ _ hc) c2 hc2

theorem invAll_trans (lib : Library) (mem : Mem) (cfgs : MemConfigs)
    (h : InvAll lib cfgs) : InvAll lib (handle_trans lib mem cfgs) := by
  unfold handle_trans
  refine invAll_foldl ?_ cfgs h
  intro cs rpidx hcs
  refine invAll_foldl ?_ cs hcs
  intro cs2 wpidx hcs2
  unfold handle_trans_rw
  dsimp only
  split
  · exact hcs2
  · split
    · exact hcs2
    · split
      · exact hcs2
      · split
        · exact hcs2
        · split
          · exact hcs2
          · exact invAll_flatMap
              (fun c hcInv c2 hc2 => trans_cfg_inv lib _ rpidx wpidx c hcInv c2 hc2) hcs2

theorem prio_cfg_inv (lib : Library) (p1idx p2idx : Nat) (c : MemConfig) (hc : Inv lib c) :
    ∀ c2 ∈ handle_prio_cfg lib p1idx p2idx c, Inv lib c2 := by
  intro c2 hc2
  unfold handle_prio_cfg at hc2
  dsimp only at hc2
  have hstep : ∀ prdef : Capability String, ∀ c3 ∈
      ((if decide ((((lib.getD c.ram_def default).ports.getD (c.rd_ports.getD p1idx default).port_def default).val.names.getD 0 "") = prdef.val) then
          (if wrport_opts_applied c p2idx prdef then some c
           else
             let r := apply_wrport_opts c p2idx prdef
             if r.1 then some r.2 else none).toList
        else []) : MemConfigs), Inv lib c3 := by
    intro prdef c3 hm
    split at hm
    · have hsome := mem_toList hm
      split at hsome
      · injection hsome with he
        subst he
        exact hc
      · dsimp only at hsome
        split at hsome
        · injection hsome with he
          subst he
          exact apply_wrport_opts_inv lib c p2idx prdef hc
        · cases hsome
    · exact absurd hm (List.not_mem_nil c3)
  split at hc2
  · rw [List.mem_append] at hc2
    rcases hc2 with hm | hm
    · exact caps_free_fold_mem _ _ (Inv lib) (fun cap c3 h3 => hstep cap c3 h3) c2 hm
    · rw [List.mem_singleton] at hm
      subst hm
      refine inv_wr_set_keep_portdef lib hc p2idx ?_
      rfl
  · exact caps_free_fold_mem _ _ (Inv lib) (fun cap c3 h3 => hstep cap c3 h3) c2 hc2

theorem invAll_priority (lib : Library) (mem : Mem) (cfgs : MemConfigs)
    (h : InvAll lib cfgs) : InvAll lib (handle_priority lib mem cfgs) := by
  unfold handle_priority
  refine invAll_foldl ?_ cfgs h
  intro cs p1idx hcs
  refine invAll_foldl ?_ cs hcs
  intro cs2 p2idx hcs2
  split
  · exact invAll_flatMap
      (fun c hcInv c2 hc2 => prio_cfg_inv lib p1idx p2idx c hcInv c2 hc2) hcs2
  · exact hcs2

theorem rd_rst_cap_step_inv (lib : Library) (ks : ResetKind) (val : List St) (pidx : Nat)
    (c : MemConfig) (hc : Inv lib c) :
    ∀ rstdef : Capability ResetValDef,
      ∀ c2 ∈ (rd_rst_cap_step ks val pidx c rstdef).1, Inv lib c2 := by
  intro rstdef c2 hm
  unfold rd_rst_cap_step at hm
  split at hm
  · exact absurd hm (List.not_mem_nil c2)
  · dsimp only at hm
    split at hm
    · exact absurd hm (List.not_mem_nil c2)
    · have helem : ELem (apply_rstval (c.rd_ports.getD pidx default) rstdef.val val).2 := by
        obtain ⟨f1, f2, f3, f4, f5, f6⟩ :=
          apply_rstval_flags (c.rd_ports.getD pidx default) rstdef.val val
        exact elem_of_flags_eq (elem_getD hc.1 pidx) f1 f2 f3 f4 f5 f6
      have hA : Inv lib { c with rd_ports := c.rd_ports.set pidx (apply_rstval (c.rd_ports.getD pidx default) rstdef.val val).2 } :=
        inv_rd_set lib _ hc _ helem pidx
      split at hm
      · rw [List.mem_singleton] at hm
        subst hm
        exact hA
      · split at hm
        · rw [List.mem_singleton] at hm
          subst hm
          exact apply_rdport_opts_inv lib _ pidx rstdef hA
        · exact absurd hm (List.not_mem_nil c2)

theorem invAll_rd_init (lib : Library) (mem : Mem) (cfgs : MemConfigs)
    (h : InvAll lib cfgs) : InvAll lib (handle_rd_init lib mem cfgs) := by
  unfold handle_rd_init
  refine invAll_foldl ?_ cfgs h
  intro cs pidx hcs
  dsimp only
  split
  · exact hcs
  · split
    · exact hcs
    · refine invAll_flatMap ?_ hcs
      intro c hcInv c2 hc2
      split at hc2
      · rw [List.mem_singleton] at hc2
        subst hc2
        exact hcInv
      · rename_i hsync
        split at hc2
        · rw [List.mem_append] at hc2
          rcases hc2 with hm | hm
          · exact caps_free_fold_mem _ _ (Inv lib)
              (rd_rst_cap_step_inv lib ResetKind.rinit _ pidx c hcInv) c2 hm
          · rw [List.mem_singleton] at hm
            subst hm
            refine inv_rd_set lib _ hcInv _ ?_ pidx
            exact elem_of_sync_false (by
              show (c.rd_ports.getD pidx default).emu_sync = false
              rw [Bool.eq_false_iff]
              exact hsync)
        · exact caps_free_fold_mem _ _ (Inv lib)
            (rd_rst_cap_step_inv lib ResetKind.rinit _ pidx c hcInv) c2 hc2

theorem invAll_rd_arst (lib : Library) (mem : Mem) (cfgs : MemConfigs)
    (h : InvAll lib cfgs) : InvAll lib (handle_rd_arst lib mem cfgs) := by
  unfold handle_rd_arst
  refine invAll_foldl ?_ cfgs h
  intro cs pidx hcs
  dsimp only
  split
  · exact hcs
  · split
    · exact hcs
    · split
      · exact hcs
      · refine invAll_flatMap ?_ hcs
        intro c hcInv c2 hc2
        split at hc2
        · rw [List.mem_singleton] at hc2
          subst hc2
          exact hcInv
        · rename_i hsync
          split at hc2
          · rw [List.mem_append] at hc2
            rcases hc2 with hm | hm
            · exact caps_free_fold_mem _ _ (Inv lib)
                (rd_rst_cap_step_inv lib ResetKind.rasync _ pidx c hcInv) c2 hm
            · rw [List.mem_singleton] at hm
              subst hm
              refine inv_rd_set lib _ hcInv _ ?_ pidx
              exact elem_of_sync_false (by
                show (c.rd_ports.getD pidx default).emu_sync = false
                rw [Bool.eq_false_iff]
                exact hsync)
          · exact caps_free_fold_mem _ _ (Inv lib)
              (rd_rst_cap_step_inv lib ResetKind.rasync _ pidx c hcInv) c2 hc2

theorem srst_mode_step_inv (lib : Library) (port : RdPort) (pidx : Nat) (cfg2 : MemConfig)
    (hinv : Inv lib cfg2) (hsync : (cfg2.rd_ports.getD pidx default).emu_sync = false)
    (mdef : Capability SrstKind) :
    ∀ c2 : MemConfig, srst_mode_step port pidx cfg2 mdef = some c2 → Inv lib c2 := by
  intro c2 h
  unfold srst_mode_step at h
  dsimp only at h
  split at h
  · split at h
    · injection h with he
      subst he
      refine apply_rdport_opts_inv lib _ pidx mdef ?_
      refine inv_rd_set lib _ hinv _ ?_ pidx
      exact elem_of_sync_false hsync
    · cases h
  · split at h
    · injection h with he
      subst he
      exact apply_rdport_opts_inv lib _ pidx mdef hinv
    · cases h

theorem rd_srst_cap_step_inv (lib : Library) (port : RdPort) (pidx : Nat)
    (mdefs : List (Capability SrstKind)) (c : MemConfig) (hc : Inv lib c)
    (hsync : (c.rd_ports.getD pidx default).emu_sync = false) :
    ∀ rstdef : Capability ResetValDef,
      ∀ c2 ∈ (rd_srst_cap_step port pidx mdefs c rstdef).1, Inv lib c2 := by
  intro rstdef c2 hm
  unfold rd_srst_cap_step at hm
  split at hm
  · exact absurd hm (List.not_mem_nil c2)
  · dsimp only at hm
    split at hm
    · exact absurd hm (List.not_mem_nil c2)
    · have hflags := apply_rstval_flags (c.rd_ports.getD pidx default) rstdef.val port.srst_value
      have helem : ELem (apply_rstval (c.rd_ports.getD pidx default) rstdef.val port.srst_value).2 := by
        obtain ⟨f1, f2, f3, f4, f5, f6⟩ := hflags
        exact elem_of_flags_eq (elem_getD hc.1 pidx) f1 f2 f3 f4 f5 f6
      have hA : Inv lib { c with rd_ports := c.rd_ports.set pidx (apply_rstval (c.rd_ports.getD pidx default) rstdef.val port.srst_value).2 } :=
        inv_rd_set lib _ hc _ helem pidx
      have hAsync : (({ c with rd_ports := c.rd_ports.set pidx (apply_rstval (c.rd_ports.getD pidx default) rstdef.val port.srst_value).2 } : MemConfig).rd_ports.getD pidx default).emu_sync = false := by
        refine getD_set_emu_sync _ pidx _ ?_ hsync
        rw [hflags.1]
        exact hsync
      split at hm
      · exact absurd hm (List.not_mem_nil c2)
      · rename_i cfg2 heq
        have hcfg2 : Inv lib cfg2 ∧ (cfg2.rd_ports.getD pidx default).emu_sync = false := by
          split at heq
          · injection heq with he
            subst he
            exact ⟨hA, hAsync⟩
          · split at heq
            · injection heq with he
              subst he
              refine ⟨apply_rdport_opts_inv lib _ pidx rstdef hA, ?_⟩
              rw [apply_rdport_opts_sync]
              exact hAsync
            · cases heq
        split at hm
        · rw [List.mem_singleton] at hm
          subst hm
          exact hcfg2.1
        · rw [List.mem_filterMap] at hm
          obtain ⟨mdef, _, hsome⟩ := hm
          exact srst_mode_step_inv lib port pidx _ hcfg2.1 hcfg2.2 mdef c2 hsome

theorem invAll_rd_srst (lib : Library) (mem : Mem) (cfgs : MemConfigs)
    (h : InvAll lib cfgs) : InvAll lib (handle_rd_srst lib mem cfgs) := by
  unfold handle_rd_srst
  refine invAll_foldl ?_ cfgs h
  intro cs pidx hcs
  dsimp only
  split
  · exact hcs
  · split
    · exact hcs
    · split
      · exact hcs
      · refine invAll_flatMap ?_ hcs
        intro c hcInv c2 hc2
        split at hc2
        · rw [List.mem_singleton] at hc2
          subst hc2
          exact hcInv
        · rename_i hsync
          have hsyncF : (c.rd_ports.getD pidx default).emu_sync = false := by
            rw [Bool.eq_false_iff]
            exact hsync
          split at hc2
          · rw [List.mem_append] at hc2
            rcases hc2 with hm | hm
            · exact caps_free_fold_mem _ _ (Inv lib)
                (rd_srst_cap_step_inv lib _ pidx _ c hcInv hsyncF) c2 hm
            · rw [List.mem_singleton] at hm
              subst hm
              refine inv_rd_set lib _ hcInv _ ?_ pidx
              exact elem_of_sync_false hsyncF
          · exact caps_free_fold_mem _ _ (Inv lib)
              (rd_srst_cap_step_inv lib _ pidx _ c hcInv hsyncF) c2 hc2

theorem run_mapping_inv (lib : Library) (env : Env) (mem : Mem) :
    InvAll lib (run_mapping lib env mem) := by
  unfold run_mapping
  split
  · intro c hc
    exact absurd hc (List.not_mem_nil c)
  · unfold pre_prio_cfgs
    exact invAll_rd_srst lib mem _
      (invAll_rd_arst lib mem _
        (invAll_rd_init lib mem _
          (invAll_priority lib mem _
            (invAll_trans lib mem _
              (invAll_rd_ports lib env mem _
                (invAll_wr_ports lib mem.wr_ports _
                  (invAll_handle_init lib mem _
                    (invAll_ram_style lib _ _
                      (invAll_ram_kind lib _ _ (invAll_init_cfgs lib))))))))))

theorem getD_mem_of_lt {A : Type} [Inhabited A] (l : List A) (n : Nat)
    (h : n < l.length) : l.getD n default ∈ l := by
  rw [List.getD_eq_getElem l default h]
  exact List.getElem_mem h

/-- C9: in every candidate emitted by `run_mapping`, a read-port configuration
whose whole-port synchronous-read emulation flag `emu_sync` is set has none of
the finer-grained read-path emulation flags (`emu_en`, `emu_arst`, `emu_srst`,
`emu_init`, `emu_srst_en_prio`) set: the pipeline only refines the reset/init
handling of ports it actually mapped synchronously. -/
theorem emu_sync_excludes_emu_flags (lib : Library) (env : Env) (mem : Mem)
    (cfg : MemConfig) (hcfg : cfg ∈ run_mapping lib env mem)
    (r : RdPortConfig) (hr : r ∈ cfg.rd_ports) (hs : r.emu_sync = true) :
    r.emu_en = false ∧ r.emu_arst = false ∧ r.emu_srst = false ∧
      r.emu_init = false ∧ r.emu_srst_en_prio = false :=
  (run_mapping_inv lib env mem cfg hcfg).1 r hr hs

theorem emu_sync_excludes_emu_flags_witness :
    ((((run_mapping c9_lib envT c9_mem).getD 0 default).rd_ports.getD 0
        default).emu_en = false) ∧
    ((((run_mapping c9_lib envT c9_mem).getD 0 default).rd_ports.getD 0
        default).emu_arst = false) ∧
    ((((run_mapping c9_lib envT c9_mem).getD 0 default).rd_ports.getD 0
        default).emu_srst = false) ∧
    ((((run_mapping c9_lib envT c9_mem).getD 0 default).rd_ports.getD 0
        default).emu_init = false) ∧
    ((((run_mapping c9_lib envT c9_mem).getD 0 default).rd_ports.getD 0
        default).emu_srst_en_prio = false) :=
  emu_sync_excludes_emu_flags c9_lib envT c9_mem _
    (getD_mem_of_lt _ 0 (by decide)) _
    (getD_mem_of_lt _ 0 (by decide)) (by decide)

/-- C2 (amended): in every candidate emitted by `run_mapping`, each port group
of the chosen RAM definition is used by at most as many WRITE ports as the
group declares physical port names; read-port bindings are not counted
against this bound (the source deliberately lets read ports over-subscribe a
group, splitting the RAM later). -/
theorem wr_group_usage_bounded (lib : Library) (env : Env) (mem : Mem)
    (cfg : MemConfig) (hcfg : cfg ∈ run_mapping lib env mem) (i : Nat) :
    wr_count cfg i ≤ group_size lib cfg i :=
  (run_mapping_inv lib env mem cfg hcfg).2 i

theorem wr_group_usage_bounded_witness :
    wr_count ((run_mapping c1_lib envT c1_mem).getD 0 default) 0 ≤
      group_size c1_lib ((run_mapping c1_lib envT c1_mem).getD 0 default) 0 :=
  wr_group_usage_bounded c1_lib envT c1_mem _
    (getD_mem_of_lt _ 0 (by decide)) 0

theorem apply_opts_comm_idem_witness :
    ((apply_opts (apply_opts [("x", ConstV.int 1)] [("a", ConstV.int 2)]).2
        [("b", ConstV.int 3)]).1 =
      (apply_opts [("x", ConstV.int 1)] [("b", ConstV.int 3)]).1) ∧
    apply_opts (apply_opts [("x", ConstV.int 1)] [("a", ConstV.int 2)]).2
        [("a", ConstV.int 2)] =
      (true, (apply_opts [("x", ConstV.int 1)] [("a", ConstV.int 2)]).2) := by
  constructor
  · exact (apply_opts_comm_idem.1 [("x", ConstV.int 1)] [("a", ConstV.int 2)]
      [("b", ConstV.int 3)] (by decide)).1
  · exact apply_opts_comm_idem.2 [("x", ConstV.int 1)] [("a", ConstV.int 2)] (by decide)

end MemLibMap
